import Mathlib

/-!
# A shallow embedding of the SIL cloning engine (`include/swift/SIL/SILCloner.h`)

This file models the cloning/traversal core of `SILCloner`:

* the default remap hooks (`remapValue`, `remapBasicBlock`, `postProcess`),
* the per-kind instruction clone rules (`visitAllocStackInst`, `visitEnumInst`,
  `visitSwitchIntInst`, ... routed through the generic dispatch `visit`),
* the depth-first block walker `visitSILBasicBlock`,
* the standalone single-instruction cloner `SILInstructionCloner.clone`.

Modelling conventions:

* C++ pointers to IR entities (arguments, instructions, blocks) become `Nat`
  identifiers; the opaque collaborator types `SILLocation`, `SILType` and
  `EnumElementDecl` become `Nat`; the arbitrary-precision case values of
  `SwitchIntInst` (`APInt`) become `Int`.
* An `assert` / `llvm_unreachable` aborting the process is modelled by the
  operation returning `none`.
* `llvm::DenseMap::insert` does not overwrite an existing entry; `mapInsert`
  reproduces that.
* The mutable cloner object (`ArgumentMap`, `InstructionMap`, `BBMap`, the
  builder and its insertion point) is threaded explicitly as `ClonerState`.
* The recursive walk is given an explicit fuel argument standing for the call
  stack; `none` at fuel `0` models a recursion that has not yet bottomed out.
  The walk also records a trace of `WalkEvent`s: one `enterBlock` per call of
  `visitSILBasicBlock` and one `dispatch` per instruction handed to the
  generic dispatch.
* The CRTP customization points exercised by the spec's claims are the
  location and type hooks; they are passed as a `RemapHooks` record whose
  default (`idHooks`) is the identity, exactly as in the base class.
  `remapValue` / `remapBasicBlock` are used in their default (map lookup)
  form, which is what the claims are about.
-/

/-- `llvm::DenseMap::find` on an association list with `Nat` keys. -/
def dmFind {α : Type} : List (Nat × α) → Nat → Option α
  | [], _ => none
  | (k, v) :: rest, k2 => if k = k2 then some v else dmFind rest k2

/-- `llvm::DenseMap::insert`: inserts only when the key is absent; an existing
entry is kept unchanged. -/
def mapInsert {α : Type} (m : List (Nat × α)) (k : Nat) (v : α) : List (Nat × α) :=
  match dmFind m k with
  | some _ => m
  | none => m ++ [(k, v)]

/-- A source location annotation (opaque collaborator type). -/
abbrev SILLocation := Nat

/-- A SIL type (opaque collaborator type). -/
abbrev SILType := Nat

/-- An enum case declaration reference (opaque collaborator type). -/
abbrev EnumElementDecl := Nat

/-- `ValueBase`: the defining entity of a value — a block argument or an
instruction, identified by its id. -/
inductive ValueBase
  | arg (a : Nat)
  | inst (i : Nat)
deriving DecidableEq

/-- `SILValue`: a (defining entity, result index) pair. -/
structure SILValue where
  getDef : ValueBase
  getResultNumber : Nat
deriving DecidableEq

/-- The closed, enumerated set of instruction kinds covered by the model. -/
inductive InstKind
  | allocStack | load | store | tuple | enum | branch | condBranch
  | switchInt | switchEnum | destructiveSwitchEnumAddr | ret | unreachable
deriving DecidableEq

/-- The per-kind payload of an instruction: operands, types, successor block
references and opaque fields, as read by the clone rules. -/
inductive InstData
  | allocStack (elementType : SILType)
  | load (operand : SILValue)
  | store (src : SILValue) (dest : SILValue)
  | tuple (type : SILType) (elements : List SILValue)
  | enum (operand : Option SILValue) (element : EnumElementDecl) (type : SILType)
  | branch (destBB : Nat) (args : List SILValue)
  | condBranch (condition : SILValue) (trueBB : Nat) (trueArgs : List SILValue)
      (falseBB : Nat) (falseArgs : List SILValue)
  | switchInt (operand : SILValue) (defaultBB : Option Nat)
      (cases : List (Int × Nat))
  | switchEnum (operand : SILValue) (defaultBB : Option Nat)
      (cases : List (EnumElementDecl × Nat))
  | destructiveSwitchEnumAddr (operand : SILValue) (defaultBB : Option Nat)
      (cases : List (EnumElementDecl × Nat))
  | ret (operand : SILValue)
  | unreachable

/-- The kind tag of an instruction payload. -/
def InstData.kind : InstData → InstKind
  | InstData.allocStack _ => InstKind.allocStack
  | InstData.load _ => InstKind.load
  | InstData.store _ _ => InstKind.store
  | InstData.tuple _ _ => InstKind.tuple
  | InstData.enum _ _ _ => InstKind.enum
  | InstData.branch _ _ => InstKind.branch
  | InstData.condBranch _ _ _ _ _ => InstKind.condBranch
  | InstData.switchInt _ _ _ => InstKind.switchInt
  | InstData.switchEnum _ _ _ => InstKind.switchEnum
  | InstData.destructiveSwitchEnumAddr _ _ _ => InstKind.destructiveSwitchEnumAddr
  | InstData.ret _ => InstKind.ret
  | InstData.unreachable => InstKind.unreachable

/-- A SIL instruction: identity, source location, and kind-specific payload. -/
structure SILInstruction where
  instId : Nat
  getLoc : SILLocation
  data : InstData

/-- `SILInstruction::getKind`. -/
def SILInstruction.getKind (i : SILInstruction) : InstKind := i.data.kind

/-- A block argument (`SILArgument`): identity, type, owning block. -/
structure SILArgument where
  argId : Nat
  getType : SILType
  getParent : Nat

/-- A basic block: identity, block arguments, and its instruction sequence
(the terminator is the final instruction). -/
structure SILBasicBlock where
  bbId : Nat
  getBBArgs : List SILArgument
  insts : List SILInstruction

/-- The successor block ids of a terminator payload (empty for
non-terminator kinds, which never end a well-formed block). -/
def InstData.successors : InstData → List Nat
  | InstData.branch destBB _ => [destBB]
  | InstData.condBranch _ trueBB _ falseBB _ => [trueBB, falseBB]
  | InstData.switchInt _ defaultBB cases =>
      (match defaultBB with | some d => [d] | none => []) ++ cases.map Prod.snd
  | InstData.switchEnum _ defaultBB cases =>
      (match defaultBB with | some d => [d] | none => []) ++ cases.map Prod.snd
  | InstData.destructiveSwitchEnumAddr _ defaultBB cases =>
      (match defaultBB with | some d => [d] | none => []) ++ cases.map Prod.snd
  | _ => []

/-- `SILBasicBlock::getSuccs`: the successor ids of the block's terminator. -/
def SILBasicBlock.getSuccs (bb : SILBasicBlock) : List Nat :=
  match bb.insts.getLast? with
  | some t => t.data.successors
  | none => []

/-- The CRTP remap hooks a derived transformation may override; the claims
exercise the location and type hooks (value/block remapping is used in its
default map-lookup form). -/
structure RemapHooks where
  remapLocation : SILLocation → SILLocation
  remapType : SILType → SILType

/-- The base-class default hooks: identity on locations and types. -/
def idHooks : RemapHooks := { remapLocation := fun l => l, remapType := fun t => t }

/-- The mutable state of one `SILCloner` instance: the three clone maps, the
builder (fresh-id allocator, created entities, insertion point), the optional
`InsertBeforeBB` layout anchor, and the target function's block order. -/
structure ClonerState where
  argumentMap : List (Nat × SILValue)
  instructionMap : List (Nat × Nat)
  bbMap : List (Nat × Nat)
  nextId : Nat
  createdInsts : List SILInstruction
  createdBlocks : List Nat
  createdArgs : List SILArgument
  insertionPoint : Option Nat
  insertBeforeBB : Option Nat
  blockOrder : List Nat

/-- `SILCloner::remapValue` (the default value hook): an argument value is
looked up in `ArgumentMap` (asserting result number `0`), an instruction
value is looked up in `InstructionMap` and rebuilt with the same result
number. A failed lookup is the `Unmapped ... while cloning` assertion,
modelled as `none`. -/
def remapValue (st : ClonerState) (v : SILValue) : Option SILValue :=
  match v.getDef with
  | ValueBase.arg a =>
    if v.getResultNumber = 0 then
      match dmFind st.argumentMap a with
      | some mv => some mv
      | none => none
    else none
  | ValueBase.inst i =>
    match dmFind st.instructionMap i with
    | some v2 => some { getDef := ValueBase.inst v2, getResultNumber := v.getResultNumber }
    | none => none

/-- `SILCloner::remapBasicBlock` (the default block hook): a `BBMap` lookup,
asserting (modelled as `none`) when the block was never mapped. -/
def remapBasicBlock (st : ClonerState) (bb : Nat) : Option Nat :=
  dmFind st.bbMap bb

/-- `SILCloner::postProcess`: records the original-to-clone pair in
`InstructionMap` and returns the clone (as its result-`0` value). -/
def postProcess (st : ClonerState) (orig cloned : SILInstruction) :
    ClonerState × SILValue :=
  ({ st with instructionMap := mapInsert st.instructionMap orig.instId cloned.instId },
   { getDef := ValueBase.inst cloned.instId, getResultNumber := 0 })

/-- The builder's per-kind create operation: allocates a fresh instruction at
the given location with the given payload and records it. -/
def createInst (st : ClonerState) (loc : SILLocation) (d : InstData) :
    ClonerState × SILInstruction :=
  let inst : SILInstruction := { instId := st.nextId, getLoc := loc, data := d }
  ({ st with nextId := st.nextId + 1, createdInsts := st.createdInsts ++ [inst] }, inst)

/-- The common tail of every clone rule:
`doPostProcess(Inst, Builder.createX(getOpLocation(Inst->getLoc()), ...))`,
with the already-remapped payload `d`. -/
def buildAndPostProcess (hooks : RemapHooks) (st : ClonerState)
    (orig : SILInstruction) (d : InstData) : ClonerState × SILValue :=
  let built := createInst st (hooks.remapLocation orig.getLoc) d
  postProcess built.1 orig built.2

/-- `getOpValueArray`: element-wise `remapValue` over an operand array,
preserving order and count; any failing element aborts. -/
def getOpValueArray (st : ClonerState) : List SILValue → Option (List SILValue)
  | [] => some []
  | v :: rest =>
    match remapValue st v with
    | none => none
    | some v2 =>
      match getOpValueArray st rest with
      | none => none
      | some vs => some (v2 :: vs)

/-- The `DefaultBB` preamble shared by the switch-like rules:
`SILBasicBlock *DefaultBB = nullptr; if (Inst->hasDefault()) DefaultBB =
getOpBasicBlock(Inst->getDefaultBB());`. -/
def remapDefault (st : ClonerState) : Option Nat → Option (Option Nat)
  | some d =>
    match remapBasicBlock st d with
    | some d2 => some (some d2)
    | none => none
  | none => some none

/-- The `CaseBBs` loop shared by the switch-like rules: each case keeps its
value/tag and has its target block remapped through `getOpBasicBlock`. -/
def remapCaseList {α : Type} (st : ClonerState) :
    List (α × Nat) → Option (List (α × Nat))
  | [] => some []
  | c :: rest =>
    match remapBasicBlock st c.2 with
    | none => none
    | some b2 =>
      match remapCaseList st rest with
      | none => none
      | some cs => some ((c.1, b2) :: cs)

/-- `SILCloner::visitAllocStackInst`. -/
def visitAllocStackInst (hooks : RemapHooks) (st : ClonerState)
    (inst : SILInstruction) (elementType : SILType) :
    Option (ClonerState × SILValue) :=
  some (buildAndPostProcess hooks st inst
    (InstData.allocStack (hooks.remapType elementType)))

/-- `SILCloner::visitLoadInst`. -/
def visitLoadInst (hooks : RemapHooks) (st : ClonerState)
    (inst : SILInstruction) (operand : SILValue) :
    Option (ClonerState × SILValue) :=
  match remapValue st operand with
  | none => none
  | some op2 => some (buildAndPostProcess hooks st inst (InstData.load op2))

/-- `SILCloner::visitStoreInst`. -/
def visitStoreInst (hooks : RemapHooks) (st : ClonerState)
    (inst : SILInstruction) (src dest : SILValue) :
    Option (ClonerState × SILValue) :=
  match remapValue st src with
  | none => none
  | some src2 =>
    match remapValue st dest with
    | none => none
    | some dest2 =>
      some (buildAndPostProcess hooks st inst (InstData.store src2 dest2))

/-- `SILCloner::visitTupleInst`: element-wise operand remap via
`getOpValueArray`, type via the type hook. -/
def visitTupleInst (hooks : RemapHooks) (st : ClonerState)
    (inst : SILInstruction) (type : SILType) (elements : List SILValue) :
    Option (ClonerState × SILValue) :=
  match getOpValueArray st elements with
  | none => none
  | some elements2 =>
    some (buildAndPostProcess hooks st inst
      (InstData.tuple (hooks.remapType type) elements2))

/-- `SILCloner::visitEnumInst`: the operand is remapped only when present
(`Inst->hasOperand() ? getOpValue(Inst->getOperand()) : SILValue()`); the
case element is copied verbatim. -/
def visitEnumInst (hooks : RemapHooks) (st : ClonerState)
    (inst : SILInstruction) (operand : Option SILValue)
    (element : EnumElementDecl) (type : SILType) :
    Option (ClonerState × SILValue) :=
  match operand with
  | some op =>
    match remapValue st op with
    | none => none
    | some op2 =>
      some (buildAndPostProcess hooks st inst
        (InstData.enum (some op2) element (hooks.remapType type)))
  | none =>
    some (buildAndPostProcess hooks st inst
      (InstData.enum none element (hooks.remapType type)))

/-- `SILCloner::visitBranchInst`. -/
def visitBranchInst (hooks : RemapHooks) (st : ClonerState)
    (inst : SILInstruction) (destBB : Nat) (args : List SILValue) :
    Option (ClonerState × SILValue) :=
  match getOpValueArray st args with
  | none => none
  | some args2 =>
    match remapBasicBlock st destBB with
    | none => none
    | some destBB2 =>
      some (buildAndPostProcess hooks st inst (InstData.branch destBB2 args2))

/-- `SILCloner::visitCondBranchInst`: condition and both argument lists are
remapped independently. -/
def visitCondBranchInst (hooks : RemapHooks) (st : ClonerState)
    (inst : SILInstruction) (condition : SILValue) (trueBB : Nat)
    (trueArgs : List SILValue) (falseBB : Nat) (falseArgs : List SILValue) :
    Option (ClonerState × SILValue) :=
  match getOpValueArray st trueArgs with
  | none => none
  | some trueArgs2 =>
    match getOpValueArray st falseArgs with
    | none => none
    | some falseArgs2 =>
      match remapValue st condition with
      | none => none
      | some condition2 =>
        match remapBasicBlock st trueBB with
        | none => none
        | some trueBB2 =>
          match remapBasicBlock st falseBB with
          | none => none
          | some falseBB2 =>
            some (buildAndPostProcess hooks st inst
              (InstData.condBranch condition2 trueBB2 trueArgs2 falseBB2 falseArgs2))

/-- `SILCloner::visitSwitchIntInst`: optional default first, then the case
list, then the discriminee operand. -/
def visitSwitchIntInst (hooks : RemapHooks) (st : ClonerState)
    (inst : SILInstruction) (operand : SILValue) (defaultBB : Option Nat)
    (cases : List (Int × Nat)) : Option (ClonerState × SILValue) :=
  match remapDefault st defaultBB with
  | none => none
  | some defaultBB2 =>
    match remapCaseList st cases with
    | none => none
    | some caseBBs =>
      match remapValue st operand with
      | none => none
      | some operand2 =>
        some (buildAndPostProcess hooks st inst
          (InstData.switchInt operand2 defaultBB2 caseBBs))

/-- `SILCloner::visitSwitchEnumInst`. -/
def visitSwitchEnumInst (hooks : RemapHooks) (st : ClonerState)
    (inst : SILInstruction) (operand : SILValue) (defaultBB : Option Nat)
    (cases : List (EnumElementDecl × Nat)) : Option (ClonerState × SILValue) :=
  match remapDefault st defaultBB with
  | none => none
  | some defaultBB2 =>
    match remapCaseList st cases with
    | none => none
    | some caseBBs =>
      match remapValue st operand with
      | none => none
      | some operand2 =>
        some (buildAndPostProcess hooks st inst
          (InstData.switchEnum operand2 defaultBB2 caseBBs))

/-- `SILCloner::visitDestructiveSwitchEnumAddrInst`. -/
def visitDestructiveSwitchEnumAddrInst (hooks : RemapHooks) (st : ClonerState)
    (inst : SILInstruction) (operand : SILValue) (defaultBB : Option Nat)
    (cases : List (EnumElementDecl × Nat)) : Option (ClonerState × SILValue) :=
  match remapDefault st defaultBB with
  | none => none
  | some defaultBB2 =>
    match remapCaseList st cases with
    | none => none
    | some caseBBs =>
      match remapValue st operand with
      | none => none
      | some operand2 =>
        some (buildAndPostProcess hooks st inst
          (InstData.destructiveSwitchEnumAddr operand2 defaultBB2 caseBBs))

/-- `SILCloner::visitReturnInst`. -/
def visitReturnInst (hooks : RemapHooks) (st : ClonerState)
    (inst : SILInstruction) (operand : SILValue) :
    Option (ClonerState × SILValue) :=
  match remapValue st operand with
  | none => none
  | some op2 => some (buildAndPostProcess hooks st inst (InstData.ret op2))

/-- `SILCloner::visitUnreachableInst`. -/
def visitUnreachableInst (hooks : RemapHooks) (st : ClonerState)
    (inst : SILInstruction) : Option (ClonerState × SILValue) :=
  some (buildAndPostProcess hooks st inst InstData.unreachable)

/-- The generic double dispatch (`SILVisitor::visit`): routes an instruction
to the clone rule matching its kind tag; the kind set is closed, so dispatch
is exhaustive. -/
def visit (hooks : RemapHooks) (st : ClonerState) (inst : SILInstruction) :
    Option (ClonerState × SILValue) :=
  match inst.data with
  | InstData.allocStack elementType => visitAllocStackInst hooks st inst elementType
  | InstData.load operand => visitLoadInst hooks st inst operand
  | InstData.store src dest => visitStoreInst hooks st inst src dest
  | InstData.tuple type elements => visitTupleInst hooks st inst type elements
  | InstData.enum operand element type => visitEnumInst hooks st inst operand element type
  | InstData.branch destBB args => visitBranchInst hooks st inst destBB args
  | InstData.condBranch c tb ta fb fa => visitCondBranchInst hooks st inst c tb ta fb fa
  | InstData.switchInt operand defaultBB cases =>
      visitSwitchIntInst hooks st inst operand defaultBB cases
  | InstData.switchEnum operand defaultBB cases =>
      visitSwitchEnumInst hooks st inst operand defaultBB cases
  | InstData.destructiveSwitchEnumAddr operand defaultBB cases =>
      visitDestructiveSwitchEnumAddrInst hooks st inst operand defaultBB cases
  | InstData.ret operand => visitReturnInst hooks st inst operand
  | InstData.unreachable => visitUnreachableInst hooks st inst

/-- Resolves a created instruction id back to the instruction entity (the
model's stand-in for dereferencing `clone.getDef()`). -/
def findCreatedInst (st : ClonerState) (i : Nat) : Option SILInstruction :=
  st.createdInsts.find? (fun inst => inst.instId == i)

/-- `SILInstructionCloner::clone`: run the identity-hook cloner on one
instruction, then assert that the result's kind equals the original's and
that the returned value is the primary (index-`0`) result; an assert failure
(`none`) is fatal, never recovered. -/
def SILInstructionCloner.clone (st : ClonerState) (inst : SILInstruction) :
    Option (ClonerState × SILInstruction) :=
  match visit idHooks st inst with
  | none => none
  | some (st1, v) =>
    match v.getDef with
    | ValueBase.arg _ => none
    | ValueBase.inst ci =>
      match findCreatedInst st1 ci with
      | none => none
      | some cloned =>
        if cloned.getKind = inst.getKind ∧ v.getResultNumber = 0 then
          some (st1, cloned)
        else none

/-- The events recorded by the block walker: one `enterBlock` per call of
`visitSILBasicBlock`, one `dispatch` per instruction handed to the generic
dispatch. -/
inductive WalkEvent
  | enterBlock (b : Nat)
  | dispatch (i : Nat)
deriving DecidableEq

/-- The instruction range of `visitSILBasicBlock`'s instruction loop:
`for (auto I = BB->begin(), E = --BB->end(); I != E; ++I)`, i.e. all
instructions but the last. -/
def instsToVisit (bb : SILBasicBlock) : List SILInstruction :=
  bb.insts.take (bb.insts.length - 1)

/-- The walker's instruction loop: dispatch each instruction of the range via
the generic dispatch, recording one `dispatch` event per instruction. -/
def dispatchInsts (hooks : RemapHooks) :
    ClonerState → List SILInstruction → Option (ClonerState × List WalkEvent)
  | st, [] => some (st, [])
  | st, i :: rest =>
    match visit hooks st i with
    | none => none
    | some (st1, _) =>
      match dispatchInsts hooks st1 rest with
      | none => none
      | some (st2, evs) => some (st2, WalkEvent.dispatch i.instId :: evs)

/-- The walker's argument loop: for each original argument of the discovered
successor, allocate `new SILArgument(Arg->getType(), MappedBB)` and record
the original-to-new pair in `ArgumentMap`. Note that the source passes the
original type `Arg->getType()` to the constructor. -/
def createArguments (st : ClonerState) (mappedBB : Nat) :
    List SILArgument → ClonerState
  | [] => st
  | a :: rest =>
    let mappedArg : SILArgument :=
      { argId := st.nextId, getType := a.getType, getParent := mappedBB }
    let st1 :=
      { st with nextId := st.nextId + 1,
                createdArgs := st.createdArgs ++ [mappedArg],
                argumentMap := mapInsert st.argumentMap a.argId
                  { getDef := ValueBase.arg mappedArg.argId, getResultNumber := 0 } }
    createArguments st1 mappedBB rest

/-- `F.getBlocks().splice(iterator(InsertBeforeBB), F.getBlocks(),
iterator(MappedBB))`: move block `b` directly before `anchor` in the target
function's block order. -/
def spliceBefore (order : List Nat) (anchor b : Nat) : List Nat :=
  let rem := order.filter (fun x => x ≠ b)
  rem.takeWhile (fun x => x ≠ anchor) ++ b :: rem.dropWhile (fun x => x ≠ anchor)

/-- The body of the walker's not-yet-mapped-successor branch, up to (and
excluding) the recursive call: allocate the new block, insert it into
`BBMap`, create and register the new arguments, optionally splice the new
block before `InsertBeforeBB`, and set the insertion point to it. -/
def discoverSucc (st : ClonerState) (succ : SILBasicBlock) : ClonerState :=
  let mappedBB := st.nextId
  let st1 :=
    { st with nextId := st.nextId + 1,
              createdBlocks := st.createdBlocks ++ [mappedBB],
              blockOrder := st.blockOrder ++ [mappedBB],
              bbMap := mapInsert st.bbMap succ.bbId mappedBB }
  let st2 := createArguments st1 mappedBB succ.getBBArgs
  let st3 :=
    match st2.insertBeforeBB with
    | some anchor => { st2 with blockOrder := spliceBefore st2.blockOrder anchor mappedBB }
    | none => st2
  { st3 with insertionPoint := some mappedBB }

/-- Resolve a successor id to its block in the walked control-flow graph
(the model's stand-in for the `Succ.getBB()` pointer). -/
def findBlock (cfg : List SILBasicBlock) (b : Nat) : Option SILBasicBlock :=
  cfg.find? (fun bb => bb.bbId == b)

/-- The walker's successor loop, parameterized by the recursive callee
`visitFn` (the walker itself, at one less fuel): an already-mapped successor
is skipped; an unmapped one is discovered via `discoverSucc` and then
recursively visited. -/
def visitSuccessorsWith
    (visitFn : ClonerState → SILBasicBlock → Option (ClonerState × List WalkEvent))
    (cfg : List SILBasicBlock) :
    ClonerState → List Nat → Option (ClonerState × List WalkEvent)
  | st, [] => some (st, [])
  | st, s :: rest =>
    match dmFind st.bbMap s with
    | some _ => visitSuccessorsWith visitFn cfg st rest
    | none =>
      match findBlock cfg s with
      | none => none
      | some succBB =>
        match visitFn (discoverSucc st succBB) succBB with
        | none => none
        | some (st2, evsA) =>
          match visitSuccessorsWith visitFn cfg st2 rest with
          | none => none
          | some (st3, evsB) => some (st3, evsA ++ evsB)

/-- `SILCloner::visitSILBasicBlock`: dispatch all instructions but the
terminator, then walk the successors depth-first, visiting only those not
yet in `BBMap`. The fuel argument models the (in C++ unbounded) call stack;
`none` means the recursion did not complete within the given depth. -/
def visitSILBasicBlock (hooks : RemapHooks) (cfg : List SILBasicBlock) :
    Nat → ClonerState → SILBasicBlock → Option (ClonerState × List WalkEvent)
  | 0 => fun _ _ => none
  | fuel + 1 => fun st bb =>
    match dispatchInsts hooks st (instsToVisit bb) with
    | none => none
    | some (st1, evs1) =>
      match visitSuccessorsWith (visitSILBasicBlock hooks cfg fuel) cfg st1 bb.getSuccs with
      | none => none
      | some (st2, evs2) =>
        some (st2, WalkEvent.enterBlock bb.bbId :: evs1 ++ evs2)

/-- A cloner state as freshly constructed: empty maps, no created entities,
no insertion point, no layout anchor; fresh ids start at `100` so that they
are disjoint from the original entities of the concrete scenarios below. -/
def initState : ClonerState :=
  { argumentMap := [], instructionMap := [], bbMap := [], nextId := 100,
    createdInsts := [], createdBlocks := [], createdArgs := [],
    insertionPoint := none, insertBeforeBB := none, blockOrder := [] }

/-- Self-loop scenario: block `0` has one block parameter (argument `10` of
type `7`) and its terminator branches back to block `0` itself, carrying the
parameter as loop-carried argument. -/
def loopB0 : SILBasicBlock :=
  { bbId := 0,
    getBBArgs := [{ argId := 10, getType := 7, getParent := 0 }],
    insts := [{ instId := 1, getLoc := 0,
                data := InstData.branch 0 [{ getDef := ValueBase.arg 10, getResultNumber := 0 }] }] }

/-- The self-loop control-flow graph. -/
def loopCFG : List SILBasicBlock := [loopB0]

/-- The walk of the self-loop scenario (fuel 5 is more than its depth). -/
def loopRun : Option (ClonerState × List WalkEvent) :=
  visitSILBasicBlock idHooks loopCFG 5 initState loopB0

/-- Diamond scenario: block `0` conditionally branches to blocks `1` and `2`,
which both branch to block `3`. -/
def diamondCFG : List SILBasicBlock :=
  [ { bbId := 0, getBBArgs := [],
      insts := [{ instId := 1, getLoc := 0,
                  data := InstData.condBranch { getDef := ValueBase.arg 50, getResultNumber := 0 } 1 [] 2 [] }] },
    { bbId := 1, getBBArgs := [],
      insts := [{ instId := 2, getLoc := 0, data := InstData.branch 3 [] }] },
    { bbId := 2, getBBArgs := [],
      insts := [{ instId := 3, getLoc := 0, data := InstData.branch 3 [] }] },
    { bbId := 3, getBBArgs := [],
      insts := [{ instId := 4, getLoc := 0, data := InstData.unreachable }] } ]

/-- The start block of the diamond scenario (block `0`). -/
def diamondStart : SILBasicBlock :=
  { bbId := 0, getBBArgs := [],
    insts := [{ instId := 1, getLoc := 0,
                data := InstData.condBranch { getDef := ValueBase.arg 50, getResultNumber := 0 } 1 [] 2 [] }] }

/-- The walk of the diamond scenario, started from block `0`. -/
def diamondRun : Option (ClonerState × List WalkEvent) :=
  visitSILBasicBlock idHooks diamondCFG 6 initState diamondStart

/-- The event trace of a finished run (empty when the run failed). -/
def runTrace (r : Option (ClonerState × List WalkEvent)) : List WalkEvent :=
  match r with
  | some (_, tr) => tr
  | none => []

/-- The final state of a finished run (the fresh initial state when the run
failed). -/
def runState (r : Option (ClonerState × List WalkEvent)) : ClonerState :=
  match r with
  | some (st, _) => st
  | none => initState

/-- Occurrences of `enterBlock b` in a trace: how often the walker visited
block `b`. -/
def countEnter : List WalkEvent → Nat → Nat
  | [], _ => 0
  | WalkEvent.enterBlock b2 :: rest, b =>
    (if b2 = b then 1 else 0) + countEnter rest b
  | WalkEvent.dispatch _ :: rest, b => countEnter rest b

/-! ## Map lemmas -/

/-- `dmFind` distributes over append: the left list is consulted first. -/
theorem dmFind_append {α : Type} (m m2 : List (Nat × α)) (k : Nat) :
    dmFind (m ++ m2) k =
      match dmFind m k with
      | some v => some v
      | none => dmFind m2 k := by
  induction m with
  | nil => simp [dmFind]
  | cons p rest ih =>
    obtain ⟨k1, v1⟩ := p
    by_cases hk : k1 = k
    · simp [dmFind, hk]
    · simp [dmFind, hk, ih]

/-- Inserting an absent key makes it found with the inserted value. -/
theorem mapInsert_self {α : Type} (m : List (Nat × α)) (k : Nat) (v : α)
    (h : dmFind m k = none) : dmFind (mapInsert m k v) k = some v := by
  simp [mapInsert, h, dmFind_append, dmFind]

/-- `mapInsert` never disturbs an existing entry (of any key). -/
theorem mapInsert_mono {α : Type} (m : List (Nat × α)) (k k2 : Nat) (v x : α)
    (h : dmFind m k2 = some x) : dmFind (mapInsert m k v) k2 = some x := by
  unfold mapInsert
  cases hf : dmFind m k with
  | some _ => exact h
  | none => simp [dmFind_append, h]

/-- `mapInsert` leaves the lookups of other keys unchanged. -/
theorem mapInsert_other {α : Type} (m : List (Nat × α)) (k k2 : Nat) (v : α)
    (h : k2 ≠ k) : dmFind (mapInsert m k v) k2 = dmFind m k2 := by
  unfold mapInsert
  cases hf : dmFind m k with
  | some _ => rfl
  | none =>
    rw [dmFind_append]
    cases hf2 : dmFind m k2 with
    | some _ => rfl
    | none =>
      simp only [dmFind]
      rw [if_neg fun hh => h hh.symm]

/-- After a `mapInsert` of key `k` the key is present. -/
theorem mapInsert_found {α : Type} (m : List (Nat × α)) (k : Nat) (v : α) :
    ∃ mv, dmFind (mapInsert m k v) k = some mv := by
  cases hf : dmFind m k with
  | some x => exact ⟨x, mapInsert_mono m k k v x hf⟩
  | none => exact ⟨v, mapInsert_self m k v hf⟩

/-- A key that `dmFind` misses is not among the keys. -/
theorem dmFind_none_not_mem {α : Type} (m : List (Nat × α)) (k : Nat)
    (h : dmFind m k = none) : k ∉ m.map Prod.fst := by
  induction m with
  | nil => simp
  | cons p rest ih =>
    obtain ⟨k1, v1⟩ := p
    by_cases hk : k1 = k
    · simp [dmFind, hk] at h
    · simp only [dmFind, hk, if_false] at h
      simp only [List.map_cons, List.mem_cons]
      push_neg
      exact ⟨fun hh => hk hh.symm, ih h⟩

/-- `mapInsert` preserves distinctness of the key list: a map built only via
`mapInsert` holds at most one entry per key. -/
theorem mapInsert_keysNodup {α : Type} (m : List (Nat × α)) (k : Nat) (v : α)
    (h : (m.map Prod.fst).Nodup) : ((mapInsert m k v).map Prod.fst).Nodup := by
  unfold mapInsert
  cases hf : dmFind m k with
  | some _ => exact h
  | none =>
    have hmem := dmFind_none_not_mem m k hf
    simp only [List.map_append, List.map_cons, List.map_nil]
    rw [List.nodup_append]
    exact ⟨h, List.nodup_singleton k, List.disjoint_singleton.mpr hmem⟩

/-! ## Trace lemmas -/

/-- `countEnter` is additive over trace concatenation. -/
theorem countEnter_append (l1 l2 : List WalkEvent) (b : Nat) :
    countEnter (l1 ++ l2) b = countEnter l1 b + countEnter l2 b := by
  induction l1 with
  | nil => simp [countEnter]
  | cons e rest ih =>
    cases e with
    | enterBlock b2 => simp [countEnter, ih]; omega
    | dispatch i => simp [countEnter, ih]

/-- A pure dispatch trace contains no block entries. -/
theorem countEnter_dispatch_map (insts : List SILInstruction) (b : Nat) :
    countEnter (insts.map (fun i => WalkEvent.dispatch i.instId)) b = 0 := by
  induction insts with
  | nil => rfl
  | cons i rest ih => simp [countEnter, ih]

/-- The walker's instruction range is the block's instruction list without
its final element (the terminator). -/
theorem instsToVisit_eq_dropLast (bb : SILBasicBlock) :
    instsToVisit bb = bb.insts.dropLast := by
  rw [instsToVisit, List.dropLast_eq_take]

/-! ## Clone-rule lemmas -/

/-- The common clone-rule tail, fully evaluated: the builder allocates the
clone at the remapped location with fresh id `st.nextId`, and `postProcess`
records the original-to-clone pair; the rule's result is the clone's
primary (index-`0`) value. -/
theorem buildAndPostProcess_eq (hooks : RemapHooks) (st : ClonerState)
    (orig : SILInstruction) (d : InstData) :
    buildAndPostProcess hooks st orig d =
      ({ st with
          instructionMap := mapInsert st.instructionMap orig.instId st.nextId,
          nextId := st.nextId + 1,
          createdInsts := st.createdInsts ++
            [{ instId := st.nextId, getLoc := hooks.remapLocation orig.getLoc, data := d }] },
       { getDef := ValueBase.inst st.nextId, getResultNumber := 0 }) := rfl

/-- Every successful generic dispatch leaves `BBMap` and `ArgumentMap`
untouched, appends exactly one freshly built clone of the same kind to the
created instructions, and returns that clone's primary (index-`0`) value. -/
theorem visit_spec (hooks : RemapHooks) (st : ClonerState) (inst : SILInstruction)
    (st1 : ClonerState) (v : SILValue) (h : visit hooks st inst = some (st1, v)) :
    st1.bbMap = st.bbMap ∧ st1.argumentMap = st.argumentMap ∧
      ∃ c, st1.createdInsts = st.createdInsts ++ [c] ∧ c.instId = st.nextId ∧
        c.data.kind = inst.data.kind ∧
        v = { getDef := ValueBase.inst c.instId, getResultNumber := 0 } ∧
        st1.instructionMap = mapInsert st.instructionMap inst.instId c.instId := by
  obtain ⟨iid, loc, d⟩ := inst
  cases d <;>
    simp only [visit, visitAllocStackInst, visitLoadInst, visitStoreInst, visitTupleInst,
      visitEnumInst, visitBranchInst, visitCondBranchInst, visitSwitchIntInst,
      visitSwitchEnumInst, visitDestructiveSwitchEnumAddrInst, visitReturnInst,
      visitUnreachableInst] at h <;>
    (repeat' split at h) <;>
    (try exact Option.noConfusion h) <;>
    (rw [buildAndPostProcess_eq] at h
     obtain ⟨h3, h4⟩ := Prod.mk.inj (Option.some.inj h)
     subst h3
     subst h4
     exact ⟨rfl, rfl, _, rfl, rfl, rfl, rfl, rfl⟩)

/-- A successful run of the walker's instruction loop leaves `BBMap` and
`ArgumentMap` untouched and records exactly one `dispatch` event per
instruction of the range, in the range's order. -/
theorem dispatchInsts_spec (hooks : RemapHooks) :
    ∀ (insts : List SILInstruction) (st st1 : ClonerState) (evs : List WalkEvent),
      dispatchInsts hooks st insts = some (st1, evs) →
      st1.bbMap = st.bbMap ∧ st1.argumentMap = st.argumentMap ∧
        evs = insts.map (fun i => WalkEvent.dispatch i.instId) := by
  intro insts
  induction insts with
  | nil =>
    intro st st1 evs h
    simp only [dispatchInsts, Option.some.injEq] at h
    obtain ⟨h1, h2⟩ := Prod.mk.inj h
    subst h1
    subst h2
    exact ⟨rfl, rfl, rfl⟩
  | cons i rest ih =>
    intro st st1 evs h
    cases hv : visit hooks st i with
    | none => simp [dispatchInsts, hv] at h
    | some r =>
      obtain ⟨stA, v⟩ := r
      cases hd : dispatchInsts hooks stA rest with
      | none => simp [dispatchInsts, hv, hd] at h
      | some r2 =>
        obtain ⟨stB, evs2⟩ := r2
        simp only [dispatchInsts, hv, hd, Option.some.injEq] at h
        obtain ⟨h1, h2⟩ := Prod.mk.inj h
        subst h1
        subst h2
        obtain ⟨hb, ha, -⟩ := visit_spec hooks st i stA v hv
        obtain ⟨hb2, ha2, hevs⟩ := ih stA stB evs2 hd
        exact ⟨hb2.trans hb, ha2.trans ha, by rw [hevs, List.map_cons]⟩

/-! ## Discovery lemmas -/

/-- Entries of both clone maps survive `st` to `st2`. -/
def stateMono (st st2 : ClonerState) : Prop :=
  (∀ k v, dmFind st.bbMap k = some v → dmFind st2.bbMap k = some v) ∧
  (∀ k v, dmFind st.argumentMap k = some v → dmFind st2.argumentMap k = some v)

/-- `stateMono` is reflexive. -/
theorem stateMono_refl (st : ClonerState) : stateMono st st :=
  ⟨fun _ _ h => h, fun _ _ h => h⟩

/-- `stateMono` is transitive. -/
theorem stateMono_trans {st1 st2 st3 : ClonerState}
    (h1 : stateMono st1 st2) (h2 : stateMono st2 st3) : stateMono st1 st3 :=
  ⟨fun k v h => h2.1 k v (h1.1 k v h), fun k v h => h2.2 k v (h1.2 k v h)⟩

/-- The argument loop never touches `BBMap` (nor the block bookkeeping). -/
theorem createArguments_state (mappedBB : Nat) :
    ∀ (args : List SILArgument) (st : ClonerState),
      (createArguments st mappedBB args).bbMap = st.bbMap ∧
      (createArguments st mappedBB args).blockOrder = st.blockOrder ∧
      (createArguments st mappedBB args).insertBeforeBB = st.insertBeforeBB ∧
      (createArguments st mappedBB args).insertionPoint = st.insertionPoint ∧
      (createArguments st mappedBB args).createdBlocks = st.createdBlocks ∧
      (createArguments st mappedBB args).instructionMap = st.instructionMap := by
  intro args
  induction args with
  | nil => exact fun st => ⟨rfl, rfl, rfl, rfl, rfl, rfl⟩
  | cons a rest ih => exact fun st => ih _

/-- The argument loop only ever `mapInsert`s into `ArgumentMap`: existing
entries survive. -/
theorem createArguments_argMono (mappedBB : Nat) :
    ∀ (args : List SILArgument) (st : ClonerState) (k : Nat) (x : SILValue),
      dmFind st.argumentMap k = some x →
      dmFind (createArguments st mappedBB args).argumentMap k = some x := by
  intro args
  induction args with
  | nil => exact fun st k x h => h
  | cons a rest ih =>
    intro st k x h
    exact ih _ k x (mapInsert_mono _ _ _ _ _ h)

/-- After the argument loop, every original argument of the processed list
has an entry in `ArgumentMap`. -/
theorem createArguments_found (mappedBB : Nat) :
    ∀ (args : List SILArgument) (st : ClonerState) (a : SILArgument), a ∈ args →
      ∃ mv, dmFind (createArguments st mappedBB args).argumentMap a.argId = some mv := by
  intro args
  induction args with
  | nil => intro st a ha; exact absurd ha (List.not_mem_nil a)
  | cons a0 rest ih =>
    intro st a ha
    rcases List.mem_cons.mp ha with h1 | h2
    · subst h1
      obtain ⟨mv, hmv⟩ := mapInsert_found st.argumentMap a.argId
        { getDef := ValueBase.arg st.nextId, getResultNumber := 0 }
      exact ⟨mv, createArguments_argMono mappedBB rest _ a.argId mv hmv⟩
    · exact ih _ a h2

/-- `discoverSucc` changes `BBMap` exactly by `mapInsert`ing the successor. -/
theorem discoverSucc_bbMap (st : ClonerState) (sb : SILBasicBlock) :
    (discoverSucc st sb).bbMap = mapInsert st.bbMap sb.bbId st.nextId := by
  unfold discoverSucc
  cases hsp : (createArguments
      { st with nextId := st.nextId + 1,
                createdBlocks := st.createdBlocks ++ [st.nextId],
                blockOrder := st.blockOrder ++ [st.nextId],
                bbMap := mapInsert st.bbMap sb.bbId st.nextId } st.nextId
      sb.getBBArgs).insertBeforeBB with
  | none =>
    simp only [hsp]
    exact (createArguments_state _ _ _).1
  | some anchor =>
    simp only [hsp]
    exact (createArguments_state _ _ _).1

/-- The intermediate state of `discoverSucc` right after the new block is
allocated and inserted into `BBMap` (before the argument loop). -/
def discoverState (st : ClonerState) (sb : SILBasicBlock) : ClonerState :=
  { st with nextId := st.nextId + 1,
            createdBlocks := st.createdBlocks ++ [st.nextId],
            blockOrder := st.blockOrder ++ [st.nextId],
            bbMap := mapInsert st.bbMap sb.bbId st.nextId }

/-- The argument map and created arguments of `discoverSucc` are those left
by its argument loop (the optional splice and the insertion point touch
neither). -/
theorem discoverSucc_proj (st : ClonerState) (sb : SILBasicBlock) :
    (discoverSucc st sb).argumentMap =
      (createArguments (discoverState st sb) st.nextId sb.getBBArgs).argumentMap ∧
    (discoverSucc st sb).createdArgs =
      (createArguments (discoverState st sb) st.nextId sb.getBBArgs).createdArgs ∧
    (discoverSucc st sb).instructionMap =
      (createArguments (discoverState st sb) st.nextId sb.getBBArgs).instructionMap := by
  simp only [discoverSucc, discoverState]
  split <;> exact ⟨rfl, rfl, rfl⟩

/-- Discovery of a successor never touches the `InstructionMap`. -/
theorem discoverSucc_instMap (st : ClonerState) (sb : SILBasicBlock) :
    (discoverSucc st sb).instructionMap = st.instructionMap := by
  rw [(discoverSucc_proj st sb).2.2,
    (createArguments_state st.nextId sb.getBBArgs (discoverState st sb)).2.2.2.2.2]
  rfl

/-- Discovery of a successor preserves all existing map entries. -/
theorem discoverSucc_mono (st : ClonerState) (sb : SILBasicBlock) :
    stateMono st (discoverSucc st sb) := by
  constructor
  · intro k v h
    rw [discoverSucc_bbMap]
    exact mapInsert_mono _ _ _ _ _ h
  · intro k v h
    rw [(discoverSucc_proj st sb).1]
    exact createArguments_argMono _ _ _ _ _ h

/-- Discovery of a not-yet-mapped successor maps it to the freshly
allocated block. -/
theorem discoverSucc_found_block (st : ClonerState) (sb : SILBasicBlock)
    (h : dmFind st.bbMap sb.bbId = none) :
    dmFind (discoverSucc st sb).bbMap sb.bbId = some st.nextId := by
  rw [discoverSucc_bbMap]
  exact mapInsert_self _ _ _ h

/-- Discovery registers an `ArgumentMap` entry for every original argument
of the successor. -/
theorem discoverSucc_found_args (st : ClonerState) (sb : SILBasicBlock) :
    ∀ a ∈ sb.getBBArgs,
      ∃ mv, dmFind (discoverSucc st sb).argumentMap a.argId = some mv := by
  intro a ha
  rw [(discoverSucc_proj st sb).1]
  exact createArguments_found _ _ _ a ha

/-- A resolved successor is a block of the walked graph with the looked-up
id. -/
theorem findBlock_spec (cfg : List SILBasicBlock) (s : Nat) (sb : SILBasicBlock)
    (h : findBlock cfg s = some sb) : sb ∈ cfg ∧ sb.bbId = s := by
  refine ⟨List.mem_of_find?_eq_some h, ?_⟩
  have := List.find?_some h
  simpa using this

/-! ## Walker invariants -/

/-- The successor loop preserves all existing map entries, provided the
recursive callee does. -/
theorem visitSuccessorsWith_mono
    (visitFn : ClonerState → SILBasicBlock → Option (ClonerState × List WalkEvent))
    (cfg : List SILBasicBlock)
    (hF : ∀ st bb r, visitFn st bb = some r → stateMono st r.1) :
    ∀ (l : List Nat) (st : ClonerState) (r : ClonerState × List WalkEvent),
      visitSuccessorsWith visitFn cfg st l = some r → stateMono st r.1 := by
  intro l
  induction l with
  | nil =>
    intro st r h
    simp only [visitSuccessorsWith, Option.some.injEq] at h
    rw [← h]
    exact stateMono_refl st
  | cons s rest ih =>
    intro st r h
    cases hm : dmFind st.bbMap s with
    | some x =>
      simp only [visitSuccessorsWith, hm] at h
      exact ih st r h
    | none =>
      cases hfb : findBlock cfg s with
      | none => simp [visitSuccessorsWith, hm, hfb] at h
      | some sb =>
        cases hv : visitFn (discoverSucc st sb) sb with
        | none => simp [visitSuccessorsWith, hm, hfb, hv] at h
        | some r2 =>
          obtain ⟨st2, evsA⟩ := r2
          cases hs : visitSuccessorsWith visitFn cfg st2 rest with
          | none => simp [visitSuccessorsWith, hm, hfb, hv, hs] at h
          | some r3 =>
            obtain ⟨st3, evsB⟩ := r3
            simp only [visitSuccessorsWith, hm, hfb, hv, hs, Option.some.injEq] at h
            rw [← h]
            exact stateMono_trans (discoverSucc_mono st sb)
              (stateMono_trans (hF _ _ _ hv) (ih st2 (st3, evsB) hs))

/-- The walker preserves all existing map entries: an entry established
before a (sub)walk is still present, unchanged, afterwards. -/
theorem visitSILBasicBlock_mono (hooks : RemapHooks) (cfg : List SILBasicBlock) :
    ∀ (fuel : Nat) (st : ClonerState) (bb : SILBasicBlock)
      (r : ClonerState × List WalkEvent),
      visitSILBasicBlock hooks cfg fuel st bb = some r → stateMono st r.1 := by
  intro fuel
  induction fuel with
  | zero => intro st bb r h; exact Option.noConfusion h
  | succ fuel ih =>
    intro st bb r h
    cases hd : dispatchInsts hooks st (instsToVisit bb) with
    | none => simp [visitSILBasicBlock, hd] at h
    | some r1 =>
      obtain ⟨st1, evs1⟩ := r1
      cases hs : visitSuccessorsWith (visitSILBasicBlock hooks cfg fuel) cfg st1 bb.getSuccs with
      | none => simp [visitSILBasicBlock, hd, hs] at h
      | some r2 =>
        obtain ⟨st2, evs2⟩ := r2
        simp only [visitSILBasicBlock, hd, hs, Option.some.injEq] at h
        rw [← h]
        obtain ⟨hb, ha, -⟩ := dispatchInsts_spec hooks (instsToVisit bb) st st1 evs1 hd
        have m1 : stateMono st st1 :=
          ⟨fun k v hh => by rw [hb]; exact hh, fun k v hh => by rw [ha]; exact hh⟩
        exact stateMono_trans m1
          (visitSuccessorsWith_mono _ cfg (fun st bb r hr => ih st bb r hr)
            bb.getSuccs st1 (st2, evs2) hs)

/-- `1` when the walk from `st` to `st2` newly mapped block `b`, else `0`. -/
def newBBEntry (st st2 : ClonerState) (b : Nat) : Nat :=
  if dmFind st.bbMap b = none ∧ ¬ dmFind st2.bbMap b = none then 1 else 0

/-- Newly-mapped indicators compose along a monotone chain of states. -/
theorem newBBEntry_trans_le (st stA stB : ClonerState) (b : Nat)
    (hA : ∀ v, dmFind st.bbMap b = some v → dmFind stA.bbMap b = some v)
    (hB : ∀ v, dmFind stA.bbMap b = some v → dmFind stB.bbMap b = some v) :
    newBBEntry st stA b + newBBEntry stA stB b ≤ newBBEntry st stB b := by
  unfold newBBEntry
  cases h0 : dmFind st.bbMap b with
  | some x =>
    have h1 : dmFind stA.bbMap b = some x := hA x h0
    have h2 : dmFind stB.bbMap b = some x := hB x h1
    simp [h0, h1, h2]
  | none =>
    cases h1 : dmFind stA.bbMap b with
    | some x =>
      have h2 : dmFind stB.bbMap b = some x := hB x h1
      simp [h0, h1, h2]
    | none =>
      cases h2 : dmFind stB.bbMap b with
      | some x => simp [h0, h1, h2]
      | none => simp [h0, h1, h2]

/-- Count bound for the successor loop: it enters a block only when it newly
maps it, so each block accounts for at most one entry event — provided the
recursive callee preserves map entries and obeys the block-level count bound
(one possible self-entry plus one per newly mapped block). -/
theorem visitSuccessorsWith_count
    (visitFn : ClonerState → SILBasicBlock → Option (ClonerState × List WalkEvent))
    (cfg : List SILBasicBlock)
    (hFmono : ∀ st bb r, visitFn st bb = some r → stateMono st r.1)
    (hFcount : ∀ st bb r, visitFn st bb = some r →
      ∀ b, countEnter r.2 b ≤ (if b = bb.bbId then 1 else 0) + newBBEntry st r.1 b) :
    ∀ (l : List Nat) (st : ClonerState) (r : ClonerState × List WalkEvent),
      visitSuccessorsWith visitFn cfg st l = some r →
      ∀ b, countEnter r.2 b ≤ newBBEntry st r.1 b := by
  intro l
  induction l with
  | nil =>
    intro st r h b
    simp only [visitSuccessorsWith, Option.some.injEq] at h
    rw [← h]
    simp [countEnter]
  | cons s rest ih =>
    intro st r h b
    cases hm : dmFind st.bbMap s with
    | some x =>
      simp only [visitSuccessorsWith, hm] at h
      exact ih st r h b
    | none =>
      cases hfb : findBlock cfg s with
      | none => simp [visitSuccessorsWith, hm, hfb] at h
      | some sb =>
        cases hv : visitFn (discoverSucc st sb) sb with
        | none => simp [visitSuccessorsWith, hm, hfb, hv] at h
        | some r2 =>
          obtain ⟨st2, evsA⟩ := r2
          cases hs : visitSuccessorsWith visitFn cfg st2 rest with
          | none => simp [visitSuccessorsWith, hm, hfb, hv, hs] at h
          | some r3 =>
            obtain ⟨st3, evsB⟩ := r3
            simp only [visitSuccessorsWith, hm, hfb, hv, hs, Option.some.injEq] at h
            rw [← h]
            obtain ⟨-, hsid⟩ := findBlock_spec cfg s sb hfb
            subst hsid
            have hmono1 : stateMono (discoverSucc st sb) st2 := hFmono _ _ _ hv
            have hmono2 : stateMono st2 st3 :=
              visitSuccessorsWith_mono visitFn cfg hFmono rest st2 (st3, evsB) hs
            have hreg : dmFind (discoverSucc st sb).bbMap sb.bbId = some st.nextId :=
              discoverSucc_found_block st sb hm
            have hreg2 : dmFind st2.bbMap sb.bbId = some st.nextId :=
              hmono1.1 _ _ hreg
            have cA := hFcount _ _ _ hv b
            have cB := ih st2 (st3, evsB) hs b
            dsimp only at cA cB ⊢
            rw [countEnter_append]
            have step1 : (if b = sb.bbId then 1 else 0) +
                newBBEntry (discoverSucc st sb) st2 b ≤ newBBEntry st st2 b := by
              by_cases hbs : b = sb.bbId
              · subst hbs
                have e1 : newBBEntry (discoverSucc st sb) st2 sb.bbId = 0 := by
                  simp [newBBEntry, hreg]
                have e2 : newBBEntry st st2 sb.bbId = 1 := by
                  simp [newBBEntry, hm, hreg2]
                simp [e1, e2]
              · have heq : dmFind (discoverSucc st sb).bbMap b = dmFind st.bbMap b := by
                  rw [discoverSucc_bbMap]
                  exact mapInsert_other _ _ _ _ hbs
                simp only [if_neg hbs, newBBEntry, heq]
                omega
            have step2 : newBBEntry st st2 b + newBBEntry st2 st3 b ≤
                newBBEntry st st3 b :=
              newBBEntry_trans_le st st2 st3 b
                (fun v hh => hmono1.1 b v ((discoverSucc_mono st sb).1 b v hh))
                (fun v hh => hmono2.1 b v hh)
            omega

/-- Count bound for the walker: one visit of the start block itself plus at
most one visit per block it newly registers in `BBMap`. -/
theorem visitSILBasicBlock_count (hooks : RemapHooks) (cfg : List SILBasicBlock) :
    ∀ (fuel : Nat) (st : ClonerState) (bb : SILBasicBlock)
      (r : ClonerState × List WalkEvent),
      visitSILBasicBlock hooks cfg fuel st bb = some r →
      ∀ b, countEnter r.2 b ≤ (if b = bb.bbId then 1 else 0) + newBBEntry st r.1 b := by
  intro fuel
  induction fuel with
  | zero => intro st bb r h; exact Option.noConfusion h
  | succ fuel ih =>
    intro st bb r h b
    cases hd : dispatchInsts hooks st (instsToVisit bb) with
    | none => simp [visitSILBasicBlock, hd] at h
    | some r1 =>
      obtain ⟨st1, evs1⟩ := r1
      cases hs : visitSuccessorsWith (visitSILBasicBlock hooks cfg fuel) cfg st1 bb.getSuccs with
      | none => simp [visitSILBasicBlock, hd, hs] at h
      | some r2 =>
        obtain ⟨st2, evs2⟩ := r2
        simp only [visitSILBasicBlock, hd, hs, Option.some.injEq] at h
        rw [← h]
        dsimp only
        obtain ⟨hb1, -, hevs1⟩ := dispatchInsts_spec hooks (instsToVisit bb) st st1 evs1 hd
        have c2 : countEnter evs2 b ≤ newBBEntry st1 st2 b := by
          have := visitSuccessorsWith_count (visitSILBasicBlock hooks cfg fuel) cfg
            (fun st bb r hr => visitSILBasicBlock_mono hooks cfg fuel st bb r hr)
            (fun st bb r hr => ih st bb r hr)
            bb.getSuccs st1 (st2, evs2) hs b
          exact this
        have hnE : newBBEntry st1 st2 b = newBBEntry st st2 b := by
          unfold newBBEntry
          rw [hb1]
        have hcount : countEnter (WalkEvent.enterBlock bb.bbId :: evs1 ++ evs2) b =
            (if bb.bbId = b then 1 else 0) + countEnter evs1 b + countEnter evs2 b := by
          simp [countEnter, countEnter_append]
          omega
        rw [hcount, hevs1, countEnter_dispatch_map]
        by_cases hbb : b = bb.bbId
        · subst hbb
          simp only [if_pos rfl]
          omega
        · rw [if_neg (fun hh => hbb hh.symm), if_neg hbb]
          omega

/-- Discovery keeps the `BBMap` key list duplicate-free. -/
theorem discoverSucc_keysNodup (st : ClonerState) (sb : SILBasicBlock)
    (h : (st.bbMap.map Prod.fst).Nodup) :
    ((discoverSucc st sb).bbMap.map Prod.fst).Nodup := by
  rw [discoverSucc_bbMap]
  exact mapInsert_keysNodup _ _ _ h

/-- The successor loop keeps the `BBMap` key list duplicate-free, provided
the recursive callee does. -/
theorem visitSuccessorsWith_keysNodup
    (visitFn : ClonerState → SILBasicBlock → Option (ClonerState × List WalkEvent))
    (cfg : List SILBasicBlock)
    (hF : ∀ st bb r, visitFn st bb = some r →
      (st.bbMap.map Prod.fst).Nodup → (r.1.bbMap.map Prod.fst).Nodup) :
    ∀ (l : List Nat) (st : ClonerState) (r : ClonerState × List WalkEvent),
      visitSuccessorsWith visitFn cfg st l = some r →
      (st.bbMap.map Prod.fst).Nodup → (r.1.bbMap.map Prod.fst).Nodup := by
  intro l
  induction l with
  | nil =>
    intro st r h hn
    simp only [visitSuccessorsWith, Option.some.injEq] at h
    rw [← h]
    exact hn
  | cons s rest ih =>
    intro st r h hn
    cases hm : dmFind st.bbMap s with
    | some x =>
      simp only [visitSuccessorsWith, hm] at h
      exact ih st r h hn
    | none =>
      cases hfb : findBlock cfg s with
      | none => simp [visitSuccessorsWith, hm, hfb] at h
      | some sb =>
        cases hv : visitFn (discoverSucc st sb) sb with
        | none => simp [visitSuccessorsWith, hm, hfb, hv] at h
        | some r2 =>
          obtain ⟨st2, evsA⟩ := r2
          cases hs : visitSuccessorsWith visitFn cfg st2 rest with
          | none => simp [visitSuccessorsWith, hm, hfb, hv, hs] at h
          | some r3 =>
            obtain ⟨st3, evsB⟩ := r3
            simp only [visitSuccessorsWith, hm, hfb, hv, hs, Option.some.injEq] at h
            rw [← h]
            exact ih st2 (st3, evsB) hs (hF _ _ _ hv (discoverSucc_keysNodup st sb hn))

/-- The walker keeps the `BBMap` key list duplicate-free: a `BBMap` built by
a walk holds at most one entry per original block. -/
theorem visitSILBasicBlock_keysNodup (hooks : RemapHooks) (cfg : List SILBasicBlock) :
    ∀ (fuel : Nat) (st : ClonerState) (bb : SILBasicBlock)
      (r : ClonerState × List WalkEvent),
      visitSILBasicBlock hooks cfg fuel st bb = some r →
      (st.bbMap.map Prod.fst).Nodup → (r.1.bbMap.map Prod.fst).Nodup := by
  intro fuel
  induction fuel with
  | zero => intro st bb r h; exact Option.noConfusion h
  | succ fuel ih =>
    intro st bb r h hn
    cases hd : dispatchInsts hooks st (instsToVisit bb) with
    | none => simp [visitSILBasicBlock, hd] at h
    | some r1 =>
      obtain ⟨st1, evs1⟩ := r1
      cases hs : visitSuccessorsWith (visitSILBasicBlock hooks cfg fuel) cfg st1 bb.getSuccs with
      | none => simp [visitSILBasicBlock, hd, hs] at h
      | some r2 =>
        obtain ⟨st2, evs2⟩ := r2
        simp only [visitSILBasicBlock, hd, hs, Option.some.injEq] at h
        rw [← h]
        obtain ⟨hb1, -, -⟩ := dispatchInsts_spec hooks (instsToVisit bb) st st1 evs1 hd
        have hn1 : (st1.bbMap.map Prod.fst).Nodup := by rw [hb1]; exact hn
        exact visitSuccessorsWith_keysNodup _ cfg
          (fun st bb r hr hnr => ih st bb r hr hnr) bb.getSuccs st1 (st2, evs2) hs hn1

/-- A dispatched instruction id that originates from some block of the
walked graph, at a position strictly before that block's terminator. -/
def dispatchSrc (cfg : List SILBasicBlock) (i : Nat) : Prop :=
  ∃ b2 ∈ cfg, ∃ j ∈ b2.insts.dropLast, j.instId = i

/-- Every dispatch event of the successor loop stems from a non-terminator
position of a block of the walked graph, provided the recursive callee's
dispatch events do (up to its own start block). -/
theorem visitSuccessorsWith_dispatch
    (visitFn : ClonerState → SILBasicBlock → Option (ClonerState × List WalkEvent))
    (cfg : List SILBasicBlock)
    (hF : ∀ st bb r, visitFn st bb = some r →
      ∀ i, WalkEvent.dispatch i ∈ r.2 →
        (∃ j ∈ bb.insts.dropLast, j.instId = i) ∨ dispatchSrc cfg i) :
    ∀ (l : List Nat) (st : ClonerState) (r : ClonerState × List WalkEvent),
      visitSuccessorsWith visitFn cfg st l = some r →
      ∀ i, WalkEvent.dispatch i ∈ r.2 → dispatchSrc cfg i := by
  intro l
  induction l with
  | nil =>
    intro st r h i hi
    simp only [visitSuccessorsWith, Option.some.injEq] at h
    rw [← h] at hi
    exact absurd hi (List.not_mem_nil _)
  | cons s rest ih =>
    intro st r h i hi
    cases hm : dmFind st.bbMap s with
    | some x =>
      simp only [visitSuccessorsWith, hm] at h
      exact ih st r h i hi
    | none =>
      cases hfb : findBlock cfg s with
      | none => simp [visitSuccessorsWith, hm, hfb] at h
      | some sb =>
        cases hv : visitFn (discoverSucc st sb) sb with
        | none => simp [visitSuccessorsWith, hm, hfb, hv] at h
        | some r2 =>
          obtain ⟨st2, evsA⟩ := r2
          cases hs : visitSuccessorsWith visitFn cfg st2 rest with
          | none => simp [visitSuccessorsWith, hm, hfb, hv, hs] at h
          | some r3 =>
            obtain ⟨st3, evsB⟩ := r3
            simp only [visitSuccessorsWith, hm, hfb, hv, hs, Option.some.injEq] at h
            rw [← h] at hi
            dsimp only at hi
            rcases List.mem_append.mp hi with hA | hB
            · rcases hF _ _ _ hv i hA with hlocal | hsrc
              · obtain ⟨hmem, -⟩ := findBlock_spec cfg s sb hfb
                exact ⟨sb, hmem, hlocal⟩
              · exact hsrc
            · exact ih st2 (st3, evsB) hs i hB

/-- Every dispatch event of a walk is an instruction at a non-terminator
position, either of the start block or of a block of the walked graph: the
walker never dispatches (hence never clones) a terminator. -/
theorem visitSILBasicBlock_dispatch (hooks : RemapHooks) (cfg : List SILBasicBlock) :
    ∀ (fuel : Nat) (st : ClonerState) (bb : SILBasicBlock)
      (r : ClonerState × List WalkEvent),
      visitSILBasicBlock hooks cfg fuel st bb = some r →
      ∀ i, WalkEvent.dispatch i ∈ r.2 →
        (∃ j ∈ bb.insts.dropLast, j.instId = i) ∨ dispatchSrc cfg i := by
  intro fuel
  induction fuel with
  | zero => intro st bb r h; exact Option.noConfusion h
  | succ fuel ih =>
    intro st bb r h i hi
    cases hd : dispatchInsts hooks st (instsToVisit bb) with
    | none => simp [visitSILBasicBlock, hd] at h
    | some r1 =>
      obtain ⟨st1, evs1⟩ := r1
      cases hs : visitSuccessorsWith (visitSILBasicBlock hooks cfg fuel) cfg st1 bb.getSuccs with
      | none => simp [visitSILBasicBlock, hd, hs] at h
      | some r2 =>
        obtain ⟨st2, evs2⟩ := r2
        simp only [visitSILBasicBlock, hd, hs, Option.some.injEq] at h
        rw [← h] at hi
        dsimp only at hi
        obtain ⟨-, -, hevs1⟩ := dispatchInsts_spec hooks (instsToVisit bb) st st1 evs1 hd
        rcases List.mem_cons.mp hi with hE | hi2
        · exact absurd hE (by simp)
        · rcases List.mem_append.mp hi2 with hA | hB
          · left
            rw [hevs1] at hA
            obtain ⟨j, hj, hij⟩ := List.mem_map.mp hA
            refine ⟨j, ?_, ?_⟩
            · rw [← instsToVisit_eq_dropLast]
              exact hj
            · exact WalkEvent.dispatch.inj hij
          · exact Or.inr (visitSuccessorsWith_dispatch _ cfg
              (fun st bb r hr => ih st bb r hr) bb.getSuccs st1 (st2, evs2) hs i hB)

/-- Success of the successor loop is preserved when the recursive callee is
replaced by one that succeeds (with the same result) whenever it does. -/
theorem visitSuccessorsWith_mapTo
    (visitFn visitFn2 : ClonerState → SILBasicBlock → Option (ClonerState × List WalkEvent))
    (cfg : List SILBasicBlock)
    (hF : ∀ st bb r, visitFn st bb = some r → visitFn2 st bb = some r) :
    ∀ (l : List Nat) (st : ClonerState) (r : ClonerState × List WalkEvent),
      visitSuccessorsWith visitFn cfg st l = some r →
      visitSuccessorsWith visitFn2 cfg st l = some r := by
  intro l
  induction l with
  | nil => intro st r h; exact h
  | cons s rest ih =>
    intro st r h
    cases hm : dmFind st.bbMap s with
    | some x =>
      simp only [visitSuccessorsWith, hm] at h ⊢
      exact ih st r h
    | none =>
      cases hfb : findBlock cfg s with
      | none => simp [visitSuccessorsWith, hm, hfb] at h
      | some sb =>
        cases hv : visitFn (discoverSucc st sb) sb with
        | none => simp [visitSuccessorsWith, hm, hfb, hv] at h
        | some r2 =>
          obtain ⟨st2, evsA⟩ := r2
          cases hs : visitSuccessorsWith visitFn cfg st2 rest with
          | none => simp [visitSuccessorsWith, hm, hfb, hv, hs] at h
          | some r3 =>
            obtain ⟨st3, evsB⟩ := r3
            simp only [visitSuccessorsWith, hm, hfb, hv, hs, Option.some.injEq] at h
            simp only [visitSuccessorsWith, hm, hfb, hF _ _ _ hv,
              ih st2 (st3, evsB) hs, Option.some.injEq]
            exact h

/-- One unfolding step of the walker at positive fuel. -/
theorem visitSILBasicBlock_succ_eq (hooks : RemapHooks) (cfg : List SILBasicBlock)
    (fuel : Nat) (st : ClonerState) (bb : SILBasicBlock) :
    visitSILBasicBlock hooks cfg (fuel + 1) st bb =
      match dispatchInsts hooks st (instsToVisit bb) with
      | none => none
      | some (st1, evs1) =>
        match visitSuccessorsWith (visitSILBasicBlock hooks cfg fuel) cfg st1 bb.getSuccs with
        | none => none
        | some (st2, evs2) =>
          some (st2, WalkEvent.enterBlock bb.bbId :: evs1 ++ evs2) := rfl

/-- A walk that completes at some fuel completes with the same result at one
more unit of fuel. -/
theorem visitSILBasicBlock_fuel_succ (hooks : RemapHooks) (cfg : List SILBasicBlock) :
    ∀ (fuel : Nat) (st : ClonerState) (bb : SILBasicBlock)
      (r : ClonerState × List WalkEvent),
      visitSILBasicBlock hooks cfg fuel st bb = some r →
      visitSILBasicBlock hooks cfg (fuel + 1) st bb = some r := by
  intro fuel
  induction fuel with
  | zero => intro st bb r h; exact Option.noConfusion h
  | succ fuel ih =>
    intro st bb r h
    cases hd : dispatchInsts hooks st (instsToVisit bb) with
    | none => simp [visitSILBasicBlock, hd] at h
    | some r1 =>
      obtain ⟨st1, evs1⟩ := r1
      cases hs : visitSuccessorsWith (visitSILBasicBlock hooks cfg fuel) cfg st1 bb.getSuccs with
      | none => simp [visitSILBasicBlock, hd, hs] at h
      | some r2 =>
        obtain ⟨st2, evs2⟩ := r2
        simp only [visitSILBasicBlock, hd, hs, Option.some.injEq] at h
        have hs2 := visitSuccessorsWith_mapTo _ _ cfg
          (fun st bb r hr => ih st bb r hr) bb.getSuccs st1 (st2, evs2) hs
        rw [visitSILBasicBlock_succ_eq]
        simp only [hd, hs2, Option.some.injEq]
        exact h

/-- A walk that completes at some fuel completes with the same result at any
larger fuel: the walk's recursion bottoms out and its result is stable. -/
theorem visitSILBasicBlock_fuel_le (hooks : RemapHooks) (cfg : List SILBasicBlock)
    (fuel fuel2 : Nat) (st : ClonerState) (bb : SILBasicBlock)
    (r : ClonerState × List WalkEvent) (hle : fuel ≤ fuel2)
    (h : visitSILBasicBlock hooks cfg fuel st bb = some r) :
    visitSILBasicBlock hooks cfg fuel2 st bb = some r := by
  induction fuel2 with
  | zero =>
    have : fuel = 0 := Nat.le_zero.mp hle
    rw [← this]
    exact h
  | succ fuel2 ih =>
    rcases Nat.lt_or_ge fuel (fuel2 + 1) with hlt | hge
    · exact visitSILBasicBlock_fuel_succ hooks cfg fuel2 st bb r
        (ih (Nat.lt_succ_iff.mp hlt))
    · have : fuel = fuel2 + 1 := Nat.le_antisymm hle hge
      rw [← this]
      exact h

/-- One iteration of the walker's argument loop: allocate the new argument
(carrying the original's type, owned by the new block) and register the
original-to-new pair. -/
def argStep (st : ClonerState) (mappedBB : Nat) (a : SILArgument) : ClonerState :=
  { st with nextId := st.nextId + 1,
            createdArgs := st.createdArgs ++
              [{ argId := st.nextId, getType := a.getType, getParent := mappedBB }],
            argumentMap := mapInsert st.argumentMap a.argId
              { getDef := ValueBase.arg st.nextId, getResultNumber := 0 } }

/-- The argument loop is the fold of its single step. -/
theorem createArguments_cons (st : ClonerState) (mappedBB : Nat)
    (a : SILArgument) (rest : List SILArgument) :
    createArguments st mappedBB (a :: rest) =
      createArguments (argStep st mappedBB a) mappedBB rest := rfl

/-- The argument loop appends exactly one new argument per original
argument: same count, same order, each carrying the original's type
verbatim, each owned by the new block. -/
theorem createArguments_createdArgs (mappedBB : Nat) :
    ∀ (args : List SILArgument) (st : ClonerState),
      ∃ news, (createArguments st mappedBB args).createdArgs = st.createdArgs ++ news ∧
        news.map SILArgument.getType = args.map SILArgument.getType ∧
        news.length = args.length ∧
        ∀ a2 ∈ news, a2.getParent = mappedBB := by
  intro args
  induction args with
  | nil => exact fun st => ⟨[], by simp [createArguments], rfl, rfl, by simp⟩
  | cons a rest ih =>
    intro st
    obtain ⟨news, h1, h2, h3, h4⟩ := ih (argStep st mappedBB a)
    refine ⟨{ argId := st.nextId, getType := a.getType, getParent := mappedBB } :: news,
      ?_, ?_, ?_, ?_⟩
    · rw [createArguments_cons, h1]
      simp [argStep]
    · simp [h2]
    · simp [h3]
    · intro a2 ha2
      rcases List.mem_cons.mp ha2 with h5 | h5
      · rw [h5]
      · exact h4 a2 h5

/-- When the original arguments are fresh (no prior map entries) and
mutually distinct, the argument loop registers each original argument to the
value of a created argument of the same type, owned by the new block. -/
theorem createArguments_pairing (mappedBB : Nat) :
    ∀ (args : List SILArgument) (st : ClonerState),
      (∀ a ∈ args, dmFind st.argumentMap a.argId = none) →
      (args.map SILArgument.argId).Nodup →
      ∀ a ∈ args, ∃ na,
        na ∈ (createArguments st mappedBB args).createdArgs ∧
        na.getType = a.getType ∧ na.getParent = mappedBB ∧
        dmFind (createArguments st mappedBB args).argumentMap a.argId =
          some { getDef := ValueBase.arg na.argId, getResultNumber := 0 } := by
  intro args
  induction args with
  | nil => intro st _ _ a ha; exact absurd ha (List.not_mem_nil a)
  | cons a0 rest ih =>
    intro st hfresh hnodup a ha
    rcases List.mem_cons.mp ha with h5 | h5
    · subst h5
      refine ⟨{ argId := st.nextId, getType := a.getType, getParent := mappedBB },
        ?_, rfl, rfl, ?_⟩
      · obtain ⟨news, h1, -, -, -⟩ :=
          createArguments_createdArgs mappedBB rest (argStep st mappedBB a)
        rw [createArguments_cons, h1]
        simp [argStep]
      · have hreg : dmFind (argStep st mappedBB a).argumentMap a.argId =
            some { getDef := ValueBase.arg st.nextId, getResultNumber := 0 } :=
          mapInsert_self _ _ _ (hfresh a (List.mem_cons_self a rest))
        rw [createArguments_cons]
        exact createArguments_argMono mappedBB rest _ _ _ hreg
    · obtain ⟨hhead, htail⟩ := List.nodup_cons.mp hnodup
      have hfresh2 : ∀ a2 ∈ rest, dmFind (argStep st mappedBB a0).argumentMap a2.argId = none := by
        intro a2 ha2
        have hne : a2.argId ≠ a0.argId := by
          intro hh
          exact hhead (hh ▸ List.mem_map_of_mem SILArgument.argId ha2)
        rw [show (argStep st mappedBB a0).argumentMap =
            mapInsert st.argumentMap a0.argId
              { getDef := ValueBase.arg st.nextId, getResultNumber := 0 } from rfl,
          mapInsert_other _ _ _ _ hne]
        exact hfresh a2 (List.mem_cons_of_mem a0 ha2)
      rw [createArguments_cons]
      exact ih (argStep st mappedBB a0) hfresh2 htail a h5

/-- The `CaseBBs` loop preserves the case count, the case order and each
case's value/tag, and remaps each case's target independently through the
block hook. -/
theorem remapCaseList_spec {α : Type} (st : ClonerState) :
    ∀ (cs cs2 : List (α × Nat)), remapCaseList st cs = some cs2 →
      cs2.map Prod.fst = cs.map Prod.fst ∧ cs2.length = cs.length ∧
      ∀ p ∈ cs.zip cs2, p.2.1 = p.1.1 ∧ remapBasicBlock st p.1.2 = some p.2.2 := by
  intro cs
  induction cs with
  | nil =>
    intro cs2 h
    simp only [remapCaseList, Option.some.injEq] at h
    rw [← h]
    exact ⟨rfl, rfl, by simp⟩
  | cons c rest ih =>
    intro cs2 h
    cases hb : remapBasicBlock st c.2 with
    | none => simp [remapCaseList, hb] at h
    | some b2 =>
      cases hr : remapCaseList st rest with
      | none => simp [remapCaseList, hb, hr] at h
      | some cs3 =>
        simp only [remapCaseList, hb, hr, Option.some.injEq] at h
        rw [← h]
        obtain ⟨h1, h2, h3⟩ := ih cs3 hr
        refine ⟨by simp [h1], by simp [h2], ?_⟩
        intro p hp
        rw [List.zip_cons_cons] at hp
        rcases List.mem_cons.mp hp with h4 | h4
        · rw [h4]
          exact ⟨rfl, hb⟩
        · exact h3 p h4

/-- `find?` by id over a list extended with a fresh instruction returns that
instruction. -/
theorem findCreatedInst_append_fresh (l : List SILInstruction) (c : SILInstruction)
    (h : ∀ j ∈ l, j.instId ≠ c.instId) :
    (l ++ [c]).find? (fun inst => inst.instId == c.instId) = some c := by
  induction l with
  | nil => simp
  | cons j rest ih =>
    have hj : (j.instId == c.instId) = false := by
      simp only [beq_eq_false_iff_ne, ne_eq]
      exact h j (List.mem_cons_self j rest)
    rw [List.cons_append, List.find?_cons, hj]
    exact ih fun j2 hj2 => h j2 (List.mem_cons_of_mem j hj2)

/-- A successful run of the walker's instruction loop preserves existing
`InstructionMap` entries and registers one entry for every dispatched
instruction (the clone rule's post-process step). -/
theorem dispatchInsts_registers (hooks : RemapHooks) :
    ∀ (insts : List SILInstruction) (st st1 : ClonerState) (evs : List WalkEvent),
      dispatchInsts hooks st insts = some (st1, evs) →
      (∀ k x, dmFind st.instructionMap k = some x →
        dmFind st1.instructionMap k = some x) ∧
      ∀ j ∈ insts, ∃ ci, dmFind st1.instructionMap j.instId = some ci := by
  intro insts
  induction insts with
  | nil =>
    intro st st1 evs h
    simp only [dispatchInsts, Option.some.injEq] at h
    obtain ⟨h1, -⟩ := Prod.mk.inj h
    subst h1
    exact ⟨fun k x hk => hk, by simp⟩
  | cons i rest ih =>
    intro st st1 evs h
    cases hv : visit hooks st i with
    | none => simp [dispatchInsts, hv] at h
    | some r =>
      obtain ⟨stA, v⟩ := r
      cases hd : dispatchInsts hooks stA rest with
      | none => simp [dispatchInsts, hv, hd] at h
      | some r2 =>
        obtain ⟨stB, evs2⟩ := r2
        simp only [dispatchInsts, hv, hd, Option.some.injEq] at h
        obtain ⟨h1, -⟩ := Prod.mk.inj h
        subst h1
        obtain ⟨-, -, c, -, -, -, -, hins⟩ := visit_spec hooks st i stA v hv
        obtain ⟨hmono2, hreg2⟩ := ih stA stB evs2 hd
        have hmono1 : ∀ k x, dmFind st.instructionMap k = some x →
            dmFind stA.instructionMap k = some x := by
          intro k x hk
          rw [hins]
          exact mapInsert_mono _ _ _ _ _ hk
        refine ⟨fun k x hk => hmono2 k x (hmono1 k x hk), ?_⟩
        intro j hj
        rcases List.mem_cons.mp hj with h5 | h5
        · subst h5
          obtain ⟨mv, hmv⟩ := mapInsert_found st.instructionMap j.instId c.instId
          exact ⟨mv, hmono2 _ _ (by rw [hins]; exact hmv)⟩
        · exact hreg2 j h5

/-- The successor loop preserves existing `InstructionMap` entries, provided
the recursive callee does. -/
theorem visitSuccessorsWith_instMono
    (visitFn : ClonerState → SILBasicBlock → Option (ClonerState × List WalkEvent))
    (cfg : List SILBasicBlock)
    (hF : ∀ st bb r, visitFn st bb = some r →
      ∀ k x, dmFind st.instructionMap k = some x →
        dmFind r.1.instructionMap k = some x) :
    ∀ (l : List Nat) (st : ClonerState) (r : ClonerState × List WalkEvent),
      visitSuccessorsWith visitFn cfg st l = some r →
      ∀ k x, dmFind st.instructionMap k = some x →
        dmFind r.1.instructionMap k = some x := by
  intro l
  induction l with
  | nil =>
    intro st r h
    simp only [visitSuccessorsWith, Option.some.injEq] at h
    rw [← h]
    exact fun k x hk => hk
  | cons s rest ih =>
    intro st r h
    cases hm : dmFind st.bbMap s with
    | some x =>
      simp only [visitSuccessorsWith, hm] at h
      exact ih st r h
    | none =>
      cases hfb : findBlock cfg s with
      | none => simp [visitSuccessorsWith, hm, hfb] at h
      | some sb =>
        cases hv : visitFn (discoverSucc st sb) sb with
        | none => simp [visitSuccessorsWith, hm, hfb, hv] at h
        | some r2 =>
          obtain ⟨st2, evsA⟩ := r2
          cases hs : visitSuccessorsWith visitFn cfg st2 rest with
          | none => simp [visitSuccessorsWith, hm, hfb, hv, hs] at h
          | some r3 =>
            obtain ⟨st3, evsB⟩ := r3
            simp only [visitSuccessorsWith, hm, hfb, hv, hs, Option.some.injEq] at h
            rw [← h]
            intro k x hk
            refine ih st2 (st3, evsB) hs k x (hF _ _ _ hv k x ?_)
            rw [discoverSucc_instMap]
            exact hk

/-- The walker preserves existing `InstructionMap` entries. -/
theorem visitSILBasicBlock_instMono (hooks : RemapHooks) (cfg : List SILBasicBlock) :
    ∀ (fuel : Nat) (st : ClonerState) (bb : SILBasicBlock)
      (r : ClonerState × List WalkEvent),
      visitSILBasicBlock hooks cfg fuel st bb = some r →
      ∀ k x, dmFind st.instructionMap k = some x →
        dmFind r.1.instructionMap k = some x := by
  intro fuel
  induction fuel with
  | zero => intro st bb r h; exact Option.noConfusion h
  | succ fuel ih =>
    intro st bb r h
    cases hd : dispatchInsts hooks st (instsToVisit bb) with
    | none => simp [visitSILBasicBlock, hd] at h
    | some r1 =>
      obtain ⟨st1, evs1⟩ := r1
      cases hs : visitSuccessorsWith (visitSILBasicBlock hooks cfg fuel) cfg st1 bb.getSuccs with
      | none => simp [visitSILBasicBlock, hd, hs] at h
      | some r2 =>
        obtain ⟨st2, evs2⟩ := r2
        simp only [visitSILBasicBlock, hd, hs, Option.some.injEq] at h
        rw [← h]
        intro k x hk
        exact visitSuccessorsWith_instMono _ cfg
          (fun st bb r hr => ih st bb r hr) bb.getSuccs st1 (st2, evs2) hs k x
          ((dispatchInsts_registers hooks (instsToVisit bb) st st1 evs1 hd).1 k x hk)

/-! ## Claim theorems -/

/-- A value whose defining entity has no entry in the corresponding clone
map. -/
def unmappedRef (st : ClonerState) (v : SILValue) : Prop :=
  match v.getDef with
  | ValueBase.arg a => dmFind st.argumentMap a = none
  | ValueBase.inst i => dmFind st.instructionMap i = none

/-- C4: for every value with no entry in the clone maps, the default
`remapValue` lookup fails with the unmapped-reference assertion (modelled as
`none`), and the default `remapBasicBlock` lookup of an unmapped block
likewise fails; neither ever returns a silently substituted value. -/
theorem remap_unmapped_fails (st : ClonerState) :
    (∀ v, unmappedRef st v → remapValue st v = none) ∧
    (∀ b, dmFind st.bbMap b = none → remapBasicBlock st b = none) := by
  constructor
  · intro v hv
    obtain ⟨vd, rn⟩ := v
    cases vd with
    | arg a =>
      simp only [unmappedRef] at hv
      simp [remapValue, hv]
    | inst i =>
      simp only [unmappedRef] at hv
      simp [remapValue, hv]
  · intro b hb
    simp only [remapBasicBlock, hb]

/-- Witness for C4 at a concrete unmapped argument value and block. -/
theorem remap_unmapped_fails_witness :
    remapValue initState { getDef := ValueBase.arg 5, getResultNumber := 0 } = none ∧
    remapBasicBlock initState 3 = none :=
  ⟨(remap_unmapped_fails initState).1
      { getDef := ValueBase.arg 5, getResultNumber := 0 } rfl,
   (remap_unmapped_fails initState).2 3 rfl⟩

/-- C9: the default `remapValue` maps the `n`-th result of a mapped
instruction to the `n`-th result of its clone — the result index is
preserved unchanged. -/
theorem remapValue_result_index (st : ClonerState) (i n ci : Nat)
    (h : dmFind st.instructionMap i = some ci) :
    remapValue st { getDef := ValueBase.inst i, getResultNumber := n } =
      some { getDef := ValueBase.inst ci, getResultNumber := n } := by
  simp [remapValue, h]

/-- A state with one instruction-map entry, for the C9 witness. -/
def c9State : ClonerState := { initState with instructionMap := [(4, 40)] }

/-- Witness for C9 at result index `2` of a concretely mapped instruction. -/
theorem remapValue_result_index_witness :
    remapValue c9State { getDef := ValueBase.inst 4, getResultNumber := 2 } =
      some { getDef := ValueBase.inst 40, getResultNumber := 2 } :=
  remapValue_result_index c9State 4 2 40 rfl

/-- C8: the enum clone rule remaps the payload operand when one is present
and preserves absence as absence — the no-operand branch never consults
`remapValue` (it succeeds for every state, mapped or not) — while the case
element tag is copied verbatim. -/
theorem enumInst_optional_operand (hooks : RemapHooks) (st : ClonerState)
    (inst : SILInstruction) (element : EnumElementDecl) (type : SILType) :
    (∀ op op2, remapValue st op = some op2 →
      ∃ st2 v c, visitEnumInst hooks st inst (some op) element type = some (st2, v) ∧
        st2.createdInsts = st.createdInsts ++ [c] ∧
        c.data = InstData.enum (some op2) element (hooks.remapType type) ∧
        v = { getDef := ValueBase.inst c.instId, getResultNumber := 0 }) ∧
    (∃ st2 v c, visitEnumInst hooks st inst none element type = some (st2, v) ∧
      st2.createdInsts = st.createdInsts ++ [c] ∧
      c.data = InstData.enum none element (hooks.remapType type) ∧
      v = { getDef := ValueBase.inst c.instId, getResultNumber := 0 }) := by
  constructor
  · intro op op2 hop
    have heq : visitEnumInst hooks st inst (some op) element type =
        some (buildAndPostProcess hooks st inst
          (InstData.enum (some op2) element (hooks.remapType type))) := by
      simp only [visitEnumInst, hop]
    rw [buildAndPostProcess_eq] at heq
    exact ⟨_, _, _, heq, rfl, rfl, rfl⟩
  · have heq : visitEnumInst hooks st inst none element type =
        some (buildAndPostProcess hooks st inst
          (InstData.enum none element (hooks.remapType type))) := rfl
    rw [buildAndPostProcess_eq] at heq
    exact ⟨_, _, _, heq, rfl, rfl, rfl⟩

/-- A state with one argument-map entry, for the C8 witness. -/
def c8State : ClonerState :=
  { initState with
      argumentMap := [(7, { getDef := ValueBase.arg 70, getResultNumber := 0 })] }

/-- An enum instruction with payload operand, for the C8 witness. -/
def c8Inst : SILInstruction :=
  { instId := 9, getLoc := 0,
    data := InstData.enum (some { getDef := ValueBase.arg 7, getResultNumber := 0 }) 3 5 }

/-- Witness for C8: a payload-carrying enum clone at a concretely mapped
operand, and a payload-less enum clone in the same state. -/
theorem enumInst_optional_operand_witness :
    (∃ st2 v c, visitEnumInst idHooks c8State c8Inst
        (some { getDef := ValueBase.arg 7, getResultNumber := 0 }) 3 5 = some (st2, v) ∧
      st2.createdInsts = c8State.createdInsts ++ [c] ∧
      c.data = InstData.enum (some { getDef := ValueBase.arg 70, getResultNumber := 0 }) 3
        (idHooks.remapType 5) ∧
      v = { getDef := ValueBase.inst c.instId, getResultNumber := 0 }) ∧
    (∃ st2 v c, visitEnumInst idHooks c8State c8Inst none 3 5 = some (st2, v) ∧
      st2.createdInsts = c8State.createdInsts ++ [c] ∧
      c.data = InstData.enum none 3 (idHooks.remapType 5) ∧
      v = { getDef := ValueBase.inst c.instId, getResultNumber := 0 }) :=
  ⟨(enumInst_optional_operand idHooks c8State c8Inst 3 5).1
      { getDef := ValueBase.arg 7, getResultNumber := 0 }
      { getDef := ValueBase.arg 70, getResultNumber := 0 } rfl,
   (enumInst_optional_operand idHooks c8State c8Inst 3 5).2⟩

/-- C7: each switch-like clone rule (`visitSwitchIntInst`,
`visitSwitchEnumInst`, `visitDestructiveSwitchEnumAddrInst`) remaps the
discriminee through the value hook, remaps every case target independently
through the block hook while preserving case count, case order and each
case's value/tag verbatim, and remaps the default target only when the
original has one — absence of a default is preserved as absence. -/
theorem switch_rules_spec (hooks : RemapHooks) (st : ClonerState)
    (inst : SILInstruction) (operand operand2 : SILValue)
    (defaultBB defaultBB2 : Option Nat)
    (hd : remapDefault st defaultBB = some defaultBB2)
    (ho : remapValue st operand = some operand2) :
    (∀ (cases caseBBs : List (Int × Nat)), remapCaseList st cases = some caseBBs →
      ∃ st2 v c, visitSwitchIntInst hooks st inst operand defaultBB cases = some (st2, v) ∧
        st2.createdInsts = st.createdInsts ++ [c] ∧
        c.data = InstData.switchInt operand2 defaultBB2 caseBBs ∧
        v = { getDef := ValueBase.inst c.instId, getResultNumber := 0 } ∧
        (defaultBB = none → defaultBB2 = none) ∧
        caseBBs.map Prod.fst = cases.map Prod.fst ∧ caseBBs.length = cases.length ∧
        ∀ p ∈ cases.zip caseBBs, p.2.1 = p.1.1 ∧ remapBasicBlock st p.1.2 = some p.2.2) ∧
    (∀ (cases caseBBs : List (EnumElementDecl × Nat)),
        remapCaseList st cases = some caseBBs →
      ∃ st2 v c, visitSwitchEnumInst hooks st inst operand defaultBB cases = some (st2, v) ∧
        st2.createdInsts = st.createdInsts ++ [c] ∧
        c.data = InstData.switchEnum operand2 defaultBB2 caseBBs ∧
        v = { getDef := ValueBase.inst c.instId, getResultNumber := 0 } ∧
        (defaultBB = none → defaultBB2 = none) ∧
        caseBBs.map Prod.fst = cases.map Prod.fst ∧ caseBBs.length = cases.length ∧
        ∀ p ∈ cases.zip caseBBs, p.2.1 = p.1.1 ∧ remapBasicBlock st p.1.2 = some p.2.2) ∧
    (∀ (cases caseBBs : List (EnumElementDecl × Nat)),
        remapCaseList st cases = some caseBBs →
      ∃ st2 v c, visitDestructiveSwitchEnumAddrInst hooks st inst operand defaultBB cases =
          some (st2, v) ∧
        st2.createdInsts = st.createdInsts ++ [c] ∧
        c.data = InstData.destructiveSwitchEnumAddr operand2 defaultBB2 caseBBs ∧
        v = { getDef := ValueBase.inst c.instId, getResultNumber := 0 } ∧
        (defaultBB = none → defaultBB2 = none) ∧
        caseBBs.map Prod.fst = cases.map Prod.fst ∧ caseBBs.length = cases.length ∧
        ∀ p ∈ cases.zip caseBBs, p.2.1 = p.1.1 ∧ remapBasicBlock st p.1.2 = some p.2.2) := by
  have habsent : defaultBB = none → defaultBB2 = none := by
    intro hnone
    subst hnone
    simp only [remapDefault, Option.some.injEq] at hd
    exact hd.symm
  refine ⟨?_, ?_, ?_⟩
  · intro cases caseBBs hc
    obtain ⟨h1, h2, h3⟩ := remapCaseList_spec st cases caseBBs hc
    have heq : visitSwitchIntInst hooks st inst operand defaultBB cases =
        some (buildAndPostProcess hooks st inst
          (InstData.switchInt operand2 defaultBB2 caseBBs)) := by
      simp only [visitSwitchIntInst, hd, hc, ho]
    rw [buildAndPostProcess_eq] at heq
    exact ⟨_, _, _, heq, rfl, rfl, rfl, habsent, h1, h2, h3⟩
  · intro cases caseBBs hc
    obtain ⟨h1, h2, h3⟩ := remapCaseList_spec st cases caseBBs hc
    have heq : visitSwitchEnumInst hooks st inst operand defaultBB cases =
        some (buildAndPostProcess hooks st inst
          (InstData.switchEnum operand2 defaultBB2 caseBBs)) := by
      simp only [visitSwitchEnumInst, hd, hc, ho]
    rw [buildAndPostProcess_eq] at heq
    exact ⟨_, _, _, heq, rfl, rfl, rfl, habsent, h1, h2, h3⟩
  · intro cases caseBBs hc
    obtain ⟨h1, h2, h3⟩ := remapCaseList_spec st cases caseBBs hc
    have heq : visitDestructiveSwitchEnumAddrInst hooks st inst operand defaultBB cases =
        some (buildAndPostProcess hooks st inst
          (InstData.destructiveSwitchEnumAddr operand2 defaultBB2 caseBBs)) := by
      simp only [visitDestructiveSwitchEnumAddrInst, hd, hc, ho]
    rw [buildAndPostProcess_eq] at heq
    exact ⟨_, _, _, heq, rfl, rfl, rfl, habsent, h1, h2, h3⟩

/-- A state mapping blocks `1 → 10`, `2 → 20` and argument `7`, for the C7
witness. -/
def c7State : ClonerState :=
  { initState with
      argumentMap := [(7, { getDef := ValueBase.arg 70, getResultNumber := 0 })],
      bbMap := [(1, 10), (2, 20)] }

/-- A switch-int instruction, for the C7 witness. -/
def c7Inst : SILInstruction :=
  { instId := 9, getLoc := 0,
    data := InstData.switchInt { getDef := ValueBase.arg 7, getResultNumber := 0 }
      (some 2) [(5, 1)] }

/-- Witness for C7: a concrete switch-int clone with one case and a default,
in a state that maps both targets and the discriminee. -/
theorem switch_rules_spec_witness :
    ∃ st2 v c, visitSwitchIntInst idHooks c7State c7Inst
        { getDef := ValueBase.arg 7, getResultNumber := 0 } (some 2) [(5, 1)] =
        some (st2, v) ∧
      st2.createdInsts = c7State.createdInsts ++ [c] ∧
      c.data = InstData.switchInt { getDef := ValueBase.arg 70, getResultNumber := 0 }
        (some 20) [(5, 10)] ∧
      v = { getDef := ValueBase.inst c.instId, getResultNumber := 0 } ∧
      ((some 2 : Option Nat) = none → (some 20 : Option Nat) = none) ∧
      ([((5 : Int), (10 : Nat))].map Prod.fst = [((5 : Int), (1 : Nat))].map Prod.fst) ∧
      ([((5 : Int), (10 : Nat))].length = [((5 : Int), (1 : Nat))].length) ∧
      ∀ p ∈ [((5 : Int), (1 : Nat))].zip [((5 : Int), (10 : Nat))],
        p.2.1 = p.1.1 ∧ remapBasicBlock c7State p.1.2 = some p.2.2 :=
  (switch_rules_spec idHooks c7State c7Inst
    { getDef := ValueBase.arg 7, getResultNumber := 0 }
    { getDef := ValueBase.arg 70, getResultNumber := 0 }
    (some 2) (some 20) rfl rfl).1 [(5, 1)] [(5, 10)] rfl

/-- C6: for every instruction of the enumerated kind set, a successful run
of the identity-hook engine yields a freshly built clone of the same kind,
returned as its primary (index-`0`) result, so the kind/primary-result
assert of `SILInstructionCloner::clone` passes and `clone` returns that new
instruction; a mismatch would make `clone` abort (`none`), never recover. -/
theorem instructionCloner_clone_spec (st : ClonerState) (inst : SILInstruction)
    (st1 : ClonerState) (v : SILValue)
    (hvisit : visit idHooks st inst = some (st1, v))
    (hfresh : ∀ j ∈ st.createdInsts, j.instId < st.nextId) :
    ∃ c, SILInstructionCloner.clone st inst = some (st1, c) ∧
      st1.createdInsts = st.createdInsts ++ [c] ∧
      c.getKind = inst.getKind ∧
      v = { getDef := ValueBase.inst c.instId, getResultNumber := 0 } := by
  obtain ⟨-, -, c, hcr, hid, hkind, hv, -⟩ := visit_spec idHooks st inst st1 v hvisit
  have hfind : findCreatedInst st1 c.instId = some c := by
    unfold findCreatedInst
    rw [hcr]
    exact findCreatedInst_append_fresh st.createdInsts c
      fun j hj => by rw [hid]; exact Nat.ne_of_lt (hfresh j hj)
  subst hv
  refine ⟨c, ?_, hcr, hkind, rfl⟩
  simp only [SILInstructionCloner.clone, hvisit, hfind]
  rw [if_pos ⟨hkind, trivial⟩]

/-- An unreachable instruction, for the C6 witness. -/
def c6Inst : SILInstruction := { instId := 0, getLoc := 0, data := InstData.unreachable }

/-- The cloner state after cloning `c6Inst` from the fresh state. -/
def c6St1 : ClonerState :=
  { initState with
      instructionMap := [(0, 100)], nextId := 101,
      createdInsts := [{ instId := 100, getLoc := 0, data := InstData.unreachable }] }

/-- Witness for C6 at a concrete instruction cloned from the fresh state. -/
theorem instructionCloner_clone_spec_witness :
    ∃ c, SILInstructionCloner.clone initState c6Inst = some (c6St1, c) ∧
      c6St1.createdInsts = initState.createdInsts ++ [c] ∧
      c.getKind = c6Inst.getKind ∧
      ({ getDef := ValueBase.inst 100, getResultNumber := 0 } : SILValue) =
        { getDef := ValueBase.inst c.instId, getResultNumber := 0 } :=
  instructionCloner_clone_spec initState c6Inst c6St1
    { getDef := ValueBase.inst 100, getResultNumber := 0 } rfl
    fun j hj => absurd hj (List.not_mem_nil j)

/-- C2: for every block passed to the walker, the walker dispatches exactly
the block's instructions other than the final terminator, in their original
order (the instruction range `begin .. --end` is the list without its last
element); each dispatched instruction ends up registered in the Instruction
Map (the clone rule's post-process step); and every instruction dispatched
anywhere in the walk sits at a non-terminator position of its block — the
terminator is never dispatched, hence never cloned, by this component. -/
theorem walker_dispatch_exact (hooks : RemapHooks) (cfg : List SILBasicBlock)
    (fuel : Nat) (st : ClonerState) (bb : SILBasicBlock)
    (st2 : ClonerState) (tr : List WalkEvent)
    (h : visitSILBasicBlock hooks cfg fuel st bb = some (st2, tr)) :
    instsToVisit bb = bb.insts.dropLast ∧
    (∃ rest, tr = WalkEvent.enterBlock bb.bbId ::
      (bb.insts.dropLast.map fun i => WalkEvent.dispatch i.instId) ++ rest) ∧
    (∀ j ∈ bb.insts.dropLast, ∃ ci, dmFind st2.instructionMap j.instId = some ci) ∧
    ∀ i, WalkEvent.dispatch i ∈ tr →
      (∃ j ∈ bb.insts.dropLast, j.instId = i) ∨ dispatchSrc cfg i := by
  have hD : ∀ i, WalkEvent.dispatch i ∈ tr →
      (∃ j ∈ bb.insts.dropLast, j.instId = i) ∨ dispatchSrc cfg i :=
    fun i hi => visitSILBasicBlock_dispatch hooks cfg fuel st bb (st2, tr) h i hi
  have hBC : (∃ rest, tr = WalkEvent.enterBlock bb.bbId ::
      (bb.insts.dropLast.map fun i => WalkEvent.dispatch i.instId) ++ rest) ∧
      ∀ j ∈ bb.insts.dropLast, ∃ ci, dmFind st2.instructionMap j.instId = some ci := by
    cases fuel with
    | zero => exact Option.noConfusion h
    | succ fuel =>
      cases hd : dispatchInsts hooks st (instsToVisit bb) with
      | none => simp [visitSILBasicBlock, hd] at h
      | some r1 =>
        obtain ⟨st1, evs1⟩ := r1
        cases hs : visitSuccessorsWith (visitSILBasicBlock hooks cfg fuel) cfg st1
            bb.getSuccs with
        | none => simp [visitSILBasicBlock, hd, hs] at h
        | some r2 =>
          obtain ⟨stB, evs2⟩ := r2
          simp only [visitSILBasicBlock, hd, hs, Option.some.injEq] at h
          obtain ⟨hB, h2⟩ := Prod.mk.inj h
          obtain ⟨-, -, hevs1⟩ := dispatchInsts_spec hooks (instsToVisit bb) st st1 evs1 hd
          constructor
          · refine ⟨evs2, ?_⟩
            rw [← h2, hevs1, instsToVisit_eq_dropLast]
          · intro j hj
            rw [← instsToVisit_eq_dropLast] at hj
            obtain ⟨ci, hci⟩ :=
              (dispatchInsts_registers hooks (instsToVisit bb) st st1 evs1 hd).2 j hj
            refine ⟨ci, ?_⟩
            rw [← hB]
            exact visitSuccessorsWith_instMono _ cfg
              (fun stA bbA rA hrA =>
                visitSILBasicBlock_instMono hooks cfg fuel stA bbA rA hrA)
              bb.getSuccs st1 (stB, evs2) hs j.instId ci hci
  exact ⟨instsToVisit_eq_dropLast bb, hBC.1, hBC.2, hD⟩

/-- A straight-line block (one alloc-stack, then the terminator), for the C2
witness. -/
def c2BB : SILBasicBlock :=
  { bbId := 0, getBBArgs := [],
    insts := [{ instId := 1, getLoc := 0, data := InstData.allocStack 5 },
              { instId := 2, getLoc := 0, data := InstData.unreachable }] }

/-- The one-block graph of the C2 witness. -/
def c2CFG : List SILBasicBlock := [c2BB]

/-- The walk of the C2 witness scenario. -/
def c2Res : Option (ClonerState × List WalkEvent) :=
  visitSILBasicBlock idHooks c2CFG 2 initState c2BB

/-- Witness for C2 on the concrete straight-line block. -/
theorem walker_dispatch_exact_witness :
    instsToVisit c2BB = c2BB.insts.dropLast ∧
    (∃ rest, runTrace c2Res = WalkEvent.enterBlock c2BB.bbId ::
      (c2BB.insts.dropLast.map fun i => WalkEvent.dispatch i.instId) ++ rest) ∧
    (∀ j ∈ c2BB.insts.dropLast,
      ∃ ci, dmFind (runState c2Res).instructionMap j.instId = some ci) ∧
    ∀ i, WalkEvent.dispatch i ∈ runTrace c2Res →
      (∃ j ∈ c2BB.insts.dropLast, j.instId = i) ∨ dispatchSrc c2CFG i :=
  walker_dispatch_exact idHooks c2CFG 2 initState c2BB (runState c2Res) (runTrace c2Res) rfl

/-- C10: on a not-yet-mapped successor, the successor loop runs the
recursive visit on exactly the state left by `discoverSucc` — a state in
which the successor's `BBMap` entry and an `ArgumentMap` entry for each of
its parameters are already present — and the walk only ever adds map
entries, so those entries persist throughout the recursive visit. -/
theorem walker_registers_before_recursion (cfg : List SILBasicBlock)
    (visitFn : ClonerState → SILBasicBlock → Option (ClonerState × List WalkEvent))
    (st : ClonerState) (s : Nat) (rest : List Nat) (sb : SILBasicBlock)
    (hm : dmFind st.bbMap s = none) (hfb : findBlock cfg s = some sb) :
    visitSuccessorsWith visitFn cfg st (s :: rest) =
      Option.bind (visitFn (discoverSucc st sb) sb) (fun p =>
        Option.bind (visitSuccessorsWith visitFn cfg p.1 rest) (fun q =>
          some (q.1, p.2 ++ q.2))) ∧
    dmFind (discoverSucc st sb).bbMap sb.bbId = some st.nextId ∧
    (∀ a ∈ sb.getBBArgs,
      ∃ mv, dmFind (discoverSucc st sb).argumentMap a.argId = some mv) ∧
    (∀ hooks fuel stA bb r, visitSILBasicBlock hooks cfg fuel stA bb = some r →
      stateMono stA r.1) := by
  obtain ⟨-, hsid⟩ := findBlock_spec cfg s sb hfb
  refine ⟨?_, ?_, discoverSucc_found_args st sb, ?_⟩
  · cases hv : visitFn (discoverSucc st sb) sb with
    | none => simp [visitSuccessorsWith, hm, hfb, hv]
    | some p =>
      obtain ⟨st2, evsA⟩ := p
      cases hs : visitSuccessorsWith visitFn cfg st2 rest with
      | none => simp [visitSuccessorsWith, hm, hfb, hv, hs]
      | some q =>
        obtain ⟨st3, evsB⟩ := q
        simp [visitSuccessorsWith, hm, hfb, hv, hs]
  · exact discoverSucc_found_block st sb (by rw [hsid]; exact hm)
  · exact fun hooks fuel stA bb r hr => visitSILBasicBlock_mono hooks cfg fuel stA bb r hr

/-- Block `1` of the diamond graph, for the C10 witness. -/
def diamondB1 : SILBasicBlock :=
  { bbId := 1, getBBArgs := [],
    insts := [{ instId := 2, getLoc := 0, data := InstData.branch 3 [] }] }

/-- Witness for C10 at the diamond graph's first successor. -/
theorem walker_registers_before_recursion_witness :
    visitSuccessorsWith (visitSILBasicBlock idHooks diamondCFG 5) diamondCFG
        initState [1, 2] =
      Option.bind (visitSILBasicBlock idHooks diamondCFG 5
          (discoverSucc initState diamondB1) diamondB1) (fun p =>
        Option.bind (visitSuccessorsWith (visitSILBasicBlock idHooks diamondCFG 5)
            diamondCFG p.1 [2]) (fun q =>
          some (q.1, p.2 ++ q.2))) ∧
    dmFind (discoverSucc initState diamondB1).bbMap diamondB1.bbId =
      some initState.nextId ∧
    (∀ a ∈ diamondB1.getBBArgs,
      ∃ mv, dmFind (discoverSucc initState diamondB1).argumentMap a.argId = some mv) ∧
    (∀ hooks fuel stA bb r,
      visitSILBasicBlock hooks diamondCFG fuel stA bb = some r → stateMono stA r.1) :=
  walker_registers_before_recursion diamondCFG
    (visitSILBasicBlock idHooks diamondCFG 5) initState 1 [2] diamondB1 rfl rfl

/-- Counterexample to C1 as stated: in the self-loop graph, the start block
`B0` is reachable from the start block (it is its own successor), yet the
walk from `B0` visits it twice — the top-level call does not pre-register
the start block, so the walk re-discovers it as a successor and enters it a
second time. -/
theorem walker_visit_once_counterexample :
    countEnter (runTrace loopRun) 0 = 2 ∧ ¬ countEnter (runTrace loopRun) 0 ≤ 1 := by
  decide

/-- C1 (amended): every block is given at most one entry in the Block Map
(the walk keeps the `BBMap` key list duplicate-free); every block other than
the start block is visited at most once, and the start block itself at most
twice (a successor already present in the Block Map is skipped); in the
diamond graph, `B1`, `B2`, `B3` are each visited exactly once and `B3` is
registered in the Block Map only once. -/
theorem walker_visit_once_amended :
    (∀ (hooks : RemapHooks) (cfg : List SILBasicBlock) (fuel : Nat)
      (st : ClonerState) (bb : SILBasicBlock) (r : ClonerState × List WalkEvent),
      visitSILBasicBlock hooks cfg fuel st bb = some r →
      (st.bbMap.map Prod.fst).Nodup → (r.1.bbMap.map Prod.fst).Nodup) ∧
    (∀ (hooks : RemapHooks) (cfg : List SILBasicBlock) (fuel : Nat)
      (st : ClonerState) (bb : SILBasicBlock) (r : ClonerState × List WalkEvent),
      visitSILBasicBlock hooks cfg fuel st bb = some r →
      (∀ b, b ≠ bb.bbId → countEnter r.2 b ≤ 1) ∧
      countEnter r.2 bb.bbId ≤ 2) ∧
    (countEnter (runTrace diamondRun) 1 = 1 ∧
     countEnter (runTrace diamondRun) 2 = 1 ∧
     countEnter (runTrace diamondRun) 3 = 1 ∧
     ((runState diamondRun).bbMap.map Prod.fst).count 3 = 1) := by
  refine ⟨?_, ?_, by decide⟩
  · exact fun hooks cfg fuel st bb r h hn =>
      visitSILBasicBlock_keysNodup hooks cfg fuel st bb r h hn
  · intro hooks cfg fuel st bb r h
    have hbound : ∀ b, newBBEntry st r.1 b ≤ 1 := by
      intro b
      unfold newBBEntry
      split <;> omega
    constructor
    · intro b hb
      have hc := visitSILBasicBlock_count hooks cfg fuel st bb r h b
      rw [if_neg hb] at hc
      have := hbound b
      omega
    · have hc := visitSILBasicBlock_count hooks cfg fuel st bb r h bb.bbId
      rw [if_pos rfl] at hc
      have := hbound bb.bbId
      omega

/-- Witness for C1 (amended) on the diamond scenario: the final Block Map
keys are duplicate-free, and a non-start block is entered at most once. -/
theorem walker_visit_once_amended_witness :
    (((runState diamondRun).bbMap.map Prod.fst).Nodup ∧
      countEnter (runTrace diamondRun) 3 ≤ 1) ∧
    countEnter (runTrace diamondRun) 1 = 1 :=
  ⟨⟨walker_visit_once_amended.1 idHooks diamondCFG 6 initState diamondStart
      (runState diamondRun, runTrace diamondRun) rfl List.nodup_nil,
    ((walker_visit_once_amended.2.1 idHooks diamondCFG 6 initState diamondStart
      (runState diamondRun, runTrace diamondRun) rfl).1 3 (by decide))⟩,
   walker_visit_once_amended.2.2.1⟩

/-- Counterexample to C5 as stated: after walking the self-loop from `B0`,
the Block Map maps `B0` (id `0`) to the freshly created clone block (id
`100`), not to `B0` itself. -/
theorem loop_selfmap_counterexample :
    dmFind (runState loopRun).bbMap 0 = some 100 ∧
    ¬ dmFind (runState loopRun).bbMap 0 = some 0 := by
  decide

/-- C5 (amended): walking the self-loop from `B0` terminates — it completes
at recursion depth 3 and the result is stable under any larger depth — and
afterwards `B0` has exactly one Block Map entry, mapping it to the newly
created clone block `100` (not to itself), and its single block parameter
(argument `10`) is registered in the Value Map exactly once. -/
theorem loop_walk_amended :
    (∀ fuel, 3 ≤ fuel → visitSILBasicBlock idHooks loopCFG fuel initState loopB0 =
      visitSILBasicBlock idHooks loopCFG 3 initState loopB0) ∧
    (∃ st2 tr, visitSILBasicBlock idHooks loopCFG 3 initState loopB0 = some (st2, tr)) ∧
    dmFind (runState loopRun).bbMap 0 = some 100 ∧ (100 : Nat) ≠ 0 ∧
    ((runState loopRun).bbMap.map Prod.fst).count 0 = 1 ∧
    ((runState loopRun).argumentMap.map Prod.fst).count 10 = 1 ∧
    (runState loopRun).createdArgs.length = 1 := by
  have h3 : visitSILBasicBlock idHooks loopCFG 3 initState loopB0 =
      some (runState loopRun, runTrace loopRun) := by rfl
  refine ⟨?_, ⟨_, _, h3⟩, by decide, by decide, by decide, by decide, by decide⟩
  intro fuel hf
  rw [visitSILBasicBlock_fuel_le idHooks loopCFG 3 fuel initState loopB0
    (runState loopRun, runTrace loopRun) hf h3, h3]

/-- Witness for C5 (amended) at fuel 4. -/
theorem loop_walk_amended_witness :
    visitSILBasicBlock idHooks loopCFG 4 initState loopB0 =
      visitSILBasicBlock idHooks loopCFG 3 initState loopB0 ∧
    dmFind (runState loopRun).bbMap 0 = some 100 :=
  ⟨loop_walk_amended.1 4 (by decide), loop_walk_amended.2.2.1⟩

/-- The remap-type hook adding one, to make the type hook observable. -/
def plusOneHooks : RemapHooks := { remapLocation := fun l => l, remapType := fun t => t + 1 }

/-- A start block branching to block `1`, for the C3 scenario. -/
def c3B0 : SILBasicBlock :=
  { bbId := 0, getBBArgs := [],
    insts := [{ instId := 1, getLoc := 0, data := InstData.branch 1 [] }] }

/-- Block `1` with one parameter of type `5`, for the C3 scenario. -/
def c3B1 : SILBasicBlock :=
  { bbId := 1, getBBArgs := [{ argId := 20, getType := 5, getParent := 1 }],
    insts := [{ instId := 2, getLoc := 0, data := InstData.unreachable }] }

/-- The two-block graph of the C3 scenario. -/
def c3CFG : List SILBasicBlock := [c3B0, c3B1]

/-- The walk of the C3 scenario under the non-identity type hook. -/
def c3Run : Option (ClonerState × List WalkEvent) :=
  visitSILBasicBlock plusOneHooks c3CFG 3 initState c3B0

/-- Counterexample to C3 as stated: walking with a non-identity remap-type
hook, the created block parameter carries the original type `5`, not the
remapped type `6` — `visitSILBasicBlock` passes `Arg->getType()` to the new
argument without applying the type hook. -/
theorem walker_arg_type_counterexample :
    (runState c3Run).createdArgs.map SILArgument.getType = [5] ∧
    c3B1.getBBArgs.map (fun a => plusOneHooks.remapType a.getType) = [6] ∧
    ¬ (runState c3Run).createdArgs.map SILArgument.getType =
      c3B1.getBBArgs.map (fun a => plusOneHooks.remapType a.getType) := by
  decide

/-- C3 (amended): for every successor newly discovered by the walker, the
discovery step creates one new block parameter per original parameter, in
the same order, each carrying the original parameter's type verbatim (the
remap-type hook is not applied) and owned by the new block, and registers
each original parameter to its new parameter's value in the Value Map. -/
theorem discoverSucc_creates_args_amended (st : ClonerState) (sb : SILBasicBlock)
    (hfresh : ∀ a ∈ sb.getBBArgs, dmFind st.argumentMap a.argId = none)
    (hnodup : (sb.getBBArgs.map SILArgument.argId).Nodup) :
    (∃ news, (discoverSucc st sb).createdArgs = st.createdArgs ++ news ∧
      news.map SILArgument.getType = sb.getBBArgs.map SILArgument.getType ∧
      news.length = sb.getBBArgs.length ∧
      ∀ a2 ∈ news, a2.getParent = st.nextId) ∧
    ∀ a ∈ sb.getBBArgs, ∃ na,
      na ∈ (discoverSucc st sb).createdArgs ∧ na.getType = a.getType ∧
      na.getParent = st.nextId ∧
      dmFind (discoverSucc st sb).argumentMap a.argId =
        some { getDef := ValueBase.arg na.argId, getResultNumber := 0 } := by
  constructor
  · obtain ⟨news, h1, h2, h3, h4⟩ :=
      createArguments_createdArgs st.nextId sb.getBBArgs (discoverState st sb)
    refine ⟨news, ?_, h2, h3, h4⟩
    rw [(discoverSucc_proj st sb).2.1, h1]
    rfl
  · intro a ha
    obtain ⟨na, h1, h2, h3, h4⟩ :=
      createArguments_pairing st.nextId sb.getBBArgs (discoverState st sb)
        hfresh hnodup a ha
    refine ⟨na, ?_, h2, h3, ?_⟩
    · rw [(discoverSucc_proj st sb).2.1]
      exact h1
    · rw [(discoverSucc_proj st sb).1]
      exact h4

/-- Witness for C3 (amended) at the concrete successor block `c3B1`
discovered from the fresh state. -/
theorem discoverSucc_creates_args_amended_witness :
    (∃ news, (discoverSucc initState c3B1).createdArgs = initState.createdArgs ++ news ∧
      news.map SILArgument.getType = c3B1.getBBArgs.map SILArgument.getType ∧
      news.length = c3B1.getBBArgs.length ∧
      ∀ a2 ∈ news, a2.getParent = initState.nextId) ∧
    ∀ a ∈ c3B1.getBBArgs, ∃ na,
      na ∈ (discoverSucc initState c3B1).createdArgs ∧ na.getType = a.getType ∧
      na.getParent = initState.nextId ∧
      dmFind (discoverSucc initState c3B1).argumentMap a.argId =
        some { getDef := ValueBase.arg na.argId, getResultNumber := 0 } :=
  discoverSucc_creates_args_amended initState c3B1
    (fun a ha => by rw [List.mem_singleton.mp ha]; rfl)
    (by decide)
